import Mathlib

/-!
Shallow embedding of `src/shdc/spirvcross.cc` (sokol-tools): SPIR-V
cross-compilation driver that assigns binding slots, extracts reflection
metadata, deduplicates uniform blocks and images across shaders, validates
vertex/fragment interfaces, and serializes reflection info to a bare binary
format.

The external SPIRV-Cross compiler object is modelled as a record of the
queryable/mutable state the source reads and writes (resource lists with
their decorations, entry points, execution model); the opaque
`compiler.compile()` call is an oracle parameter producing the translated
source text.  Machine integers are modelled as `Nat`/`Int` with explicit
modular reduction where the C++ converts between widths.  Fallible steps
(assertions, raw fixed-size array stores) are modelled with `Option`.

Types declared in `shdc.h` (which is not part of the given sources) are
modelled from the specification where needed; each such definition carries a
doc comment starting with "Modelled from the spec:".
-/

namespace shdc

/-- Modelled from the spec: shader stage tag of `shdc.h` (vertex, fragment,
or invalid), binary-encoded as 0 = invalid, 1 = vertex, 2 = fragment. -/
inductive stage_t
  | INVALID
  | VS
  | FS
deriving DecidableEq

/-- Modelled from the spec: snippet stage kind (`snippet_t::type_t` of
`shdc.h`). -/
inductive snippet_type_t
  | INVALID
  | VS
  | FS
deriving DecidableEq

/-- Modelled from the spec: the output shading-language tag
(`slang_t::type_t` of `shdc.h`), one per target dialect handled by the
`translate` dispatch. -/
inductive slang_t
  | GLSL330
  | GLSL100
  | GLSL300ES
  | HLSL5
  | METAL_MACOS
  | METAL_IOS
  | METAL_SIM
  | WGPU
deriving DecidableEq

/-- Modelled from the spec: uniform value-type tag (`uniform_t::type_t` of
`shdc.h`): scalar float, float2/3/4, 4x4 float matrix, or invalid. -/
inductive uniform_type_t
  | INVALID
  | FLOAT
  | FLOAT2
  | FLOAT3
  | FLOAT4
  | MAT4
deriving DecidableEq

/-- Modelled from the spec: image dimensionality tag (`image_t::type_t` of
`shdc.h`): 2D, cube, 3D, 2D-array, or invalid. -/
inductive image_type_t
  | INVALID
  | IMAGE_2D
  | IMAGE_CUBE
  | IMAGE_3D
  | IMAGE_ARRAY
deriving DecidableEq

/-- Modelled from the spec: image sampled-component base type
(`image_t::basetype_t` of `shdc.h`): float, signed int, unsigned int. -/
inductive image_basetype_t
  | FLOAT
  | SINT
  | UINT
deriving DecidableEq

/-- Modelled from the spec: one vertex attribute / stage-interface slot
(`attr_t` of `shdc.h`).  An unused slot carries the negative sentinel
`slot = -1`. -/
structure attr_t where
  slot : Int := -1
  name : String := ""
  sem_name : String := ""
  sem_index : Int := 0
deriving DecidableEq

/-- Modelled from the spec: the fixed capacity of the slot-indexed attribute
arrays (`attr_t::NUM` of `shdc.h`; 16 slots). -/
def attr_NUM : Nat := 16

/-- Modelled from the spec: attribute equality used by the interface
validator: name and semantic identity (and slot) must agree; two unused
(default) slots are trivially equal. -/
def attr_t.equals (a b : attr_t) : Prop :=
  a.slot = b.slot ∧ a.name = b.name ∧ a.sem_name = b.sem_name ∧ a.sem_index = b.sem_index

instance (a b : attr_t) : Decidable (a.equals b) := by
  unfold attr_t.equals
  infer_instance

/-- Modelled from the spec: one uniform-block member (`uniform_t` of
`shdc.h`): name, value-type tag, array element count (0 = scalar), byte
offset within the block. -/
structure uniform_t where
  name : String := ""
  type : uniform_type_t := .INVALID
  array_count : Nat := 0
  offset : Nat := 0
deriving DecidableEq

/-- Modelled from the spec: one uniform block (`uniform_block_t` of
`shdc.h`): binding slot, declared byte size, name, ordered member list, and
the deduplication pool index (−1 until assigned). -/
structure uniform_block_t where
  slot : Int := -1
  size : Nat := 0
  name : String := ""
  uniforms : List uniform_t := []
  unique_index : Int := -1
deriving DecidableEq

/-- Modelled from the spec: structural equality of uniform blocks used by the
deduplicator: same declared size and same ordered uniform list (name, type,
array count, offset).  The binding slot, the name (already matched by the
pool lookup) and `unique_index` are not part of the check. -/
def uniform_block_t.equals (a b : uniform_block_t) : Prop :=
  a.size = b.size ∧ a.uniforms = b.uniforms

instance (a b : uniform_block_t) : Decidable (a.equals b) := by
  unfold uniform_block_t.equals
  infer_instance

/-- Modelled from the spec: one image (`image_t` of `shdc.h`): binding slot,
name, dimensionality tag, sampled-component base type, and the deduplication
pool index (−1 until assigned). -/
structure image_t where
  slot : Int := -1
  name : String := ""
  type : image_type_t := .INVALID
  base_type : image_basetype_t := .FLOAT
  unique_index : Int := -1
deriving DecidableEq

/-- Modelled from the spec: structural equality of images used by the
deduplicator: same dimensionality and same base type; the binding slot and
name are not part of the check. -/
def image_t.equals (a b : image_t) : Prop :=
  a.type = b.type ∧ a.base_type = b.base_type

instance (a b : image_t) : Decidable (a.equals b) := by
  unfold image_t.equals
  infer_instance

/-- Modelled from the spec: the reflection record (`spirvcross_refl_t` of
`shdc.h`): stage, entry-point name, fixed-size slot-indexed input and output
attribute arrays, ordered uniform-block list, ordered image list. -/
structure spirvcross_refl_t where
  stage : stage_t := .INVALID
  entry_point : String := ""
  inputs : List attr_t := List.replicate attr_NUM {}
  outputs : List attr_t := List.replicate attr_NUM {}
  uniform_blocks : List uniform_block_t := []
  images : List image_t := []
deriving DecidableEq

/-- Modelled from the spec: one translated source (`spirvcross_source_t` of
`shdc.h`): validity flag, target-language source text, reflection info,
snippet index. -/
structure spirvcross_source_t where
  snippet_index : Nat := 0
  valid : Bool := false
  source_code : String := ""
  refl : spirvcross_refl_t := {}
deriving DecidableEq

/-- Modelled from the spec: structured payload of an error message.  The C++
builds a flat string with `fmt::format`; the constant format text is carried
by the constructor and the formatted arguments are the constructor fields,
so that "the error names the resource / shaders / slot" is a statement about
these fields. -/
inductive msg_t
  | failed_cross_compile (slang : slang_t)
  | conflicting_ub (name : String)
  | conflicting_img (name : String)
  | link_mismatch (vs_name fs_name : String) (attr_index : Nat) (vs_attr fs_attr : String)
deriving DecidableEq

/-- Modelled from the spec: one error record (`errmsg_t` of `shdc.h`): source
location, message, validity flag (a default-constructed record is "no
error"). -/
structure errmsg_t where
  valid : Bool := false
  file : String := ""
  line : Nat := 0
  msg : msg_t := .failed_cross_compile .GLSL330
deriving DecidableEq

/-- Modelled from the spec: the `errmsg_t::error` constructor of `shdc.h`:
builds a valid error record from a file path, line index and message. -/
def errmsg_t.error (file : String) (line : Nat) (m : msg_t) : errmsg_t :=
  { valid := true, file := file, line := line, msg := m }

/-- Modelled from the spec: a declared vertex+fragment program pair
(`program_t` of `shdc.h`): snippet names and a source line for
diagnostics. -/
structure program_t where
  name : String := ""
  vs_name : String := ""
  fs_name : String := ""
  line_index : Nat := 0
deriving DecidableEq

/-- Modelled from the spec: one shader snippet (`snippet_t` of `shdc.h`):
stage kind, source line mapping, per-target option flag masks. -/
structure snippet_t where
  type : snippet_type_t := .INVALID
  lines : List Nat := []
  options : slang_t → Nat := fun _ => 0

/-- Modelled from the spec: the parsed input (`input_t` of `shdc.h`): base
path for diagnostics, snippets, declared programs (the C++ iterates a map in
key order; the model takes the ordered list), and the name-to-snippet-index
maps for vertex and fragment snippets. -/
structure input_t where
  base_path : String := ""
  snippets : List snippet_t := []
  programs : List program_t := []
  vs_map : List (String × Nat) := []
  fs_map : List (String × Nat) := []

/-- Modelled from the spec: the `input_t::error` helper of `shdc.h`: builds a
valid error record located in the input file at the given line. -/
def input_t.error (inp : input_t) (line : Nat) (m : msg_t) : errmsg_t :=
  { valid := true, file := inp.base_path, line := line, msg := m }

/-- Modelled from the spec: a SPIR-V blob (`spirv_blob_t` of `shdc.h`):
bytecode plus originating snippet index. -/
structure spirv_blob_t where
  snippet_index : Nat := 0
  bytecode : List Nat := []
deriving DecidableEq

/-- Modelled from the spec: the SPIR-V compile result (`spirv_t` of
`shdc.h`): the list of blobs, one per snippet. -/
structure spirv_t where
  blobs : List spirv_blob_t := []
deriving DecidableEq

/-- The per-target cross-compile result (`spirvcross_t`): translated sources,
the two deduplication pools, and the single error slot. -/
structure spirvcross_t where
  error : errmsg_t := {}
  sources : List spirvcross_source_t := []
  unique_uniform_blocks : List uniform_block_t := []
  unique_images : List image_t := []
deriving DecidableEq

/-! ## The modelled SPIRV-Cross compiler state

`spirv_cross::Compiler` is external; the model is a record of everything the
source queries or mutates: execution model, entry points, stage I/O resources
with their location decorations, uniform buffers and sampled images with
their descriptor-set/binding decorations, member types and offsets. -/

/-- SPIR-V execution model as queried by `get_execution_model`. -/
inductive exec_model_t
  | Vertex
  | Fragment
  | Other
deriving DecidableEq

/-- SPIR-V scalar base type (`SPIRType::BaseType`), restricted to the
constructors the source inspects. -/
inductive spir_basetype_t
  | float
  | sint
  | uint
  | short
  | ushort
  | sbyte
  | ubyte
  | other
deriving DecidableEq

/-- SPIR-V image dimensionality (`spv::Dim`), restricted to the constructors
the source inspects. -/
inductive spv_dim_t
  | Dim2D
  | DimCube
  | Dim3D
  | DimOther
deriving DecidableEq

/-- The member-type information of one uniform-block member that
`fix_ub_matrix_force_colmajor` and `parse_reflection` query: base type,
vector size, column count, array dimensions. -/
structure member_type_t where
  basetype : spir_basetype_t := .other
  vecsize : Nat := 1
  columns : Nat := 1
  array : List Nat := []
deriving DecidableEq

/-- One uniform-block member as visible through the compiler: declared name,
type, byte offset, and the column-major decoration bit the source can set. -/
structure ub_member_t where
  name : String := ""
  ty : member_type_t := {}
  offset : Nat := 0
  colmajor : Bool := false
deriving DecidableEq

/-- One uniform-buffer resource as visible through the compiler: name, the
mutable descriptor-set and binding decorations, declared struct size, the
member list, and the flatten mark (`flatten_buffer_block`). -/
structure ub_resource_t where
  name : String := ""
  set_dec : Nat := 0
  binding_dec : Nat := 0
  declared_size : Nat := 0
  members : List ub_member_t := []
  flattened : Bool := false
deriving DecidableEq

/-- One sampled-image resource as visible through the compiler: name, the
mutable descriptor-set and binding decorations, dimensionality, arrayed-ness
and sampled-component base type. -/
structure img_resource_t where
  name : String := ""
  set_dec : Nat := 0
  binding_dec : Nat := 0
  dim : spv_dim_t := .DimOther
  arrayed : Bool := false
  sampled_basetype : spir_basetype_t := .float
deriving DecidableEq

/-- One stage input/output resource as visible through the compiler: name and
location decoration. -/
structure stage_attr_t where
  name : String := ""
  location : Nat := 0
deriving DecidableEq

/-- The modelled compiler state: everything the source queries
(`get_shader_resources`, `get_execution_model`,
`get_entry_points_and_stages`) or mutates (`set_decoration`,
`set_member_decoration`, `flatten_buffer_block`). -/
structure compiler_t where
  exec_model : exec_model_t := .Other
  entry_points : List (exec_model_t × String) := []
  stage_inputs : List stage_attr_t := []
  stage_outputs : List stage_attr_t := []
  uniform_buffers : List ub_resource_t := []
  sampled_images : List img_resource_t := []
deriving DecidableEq

/-- Vulkan convention: fragment-shader uniform-block bindings are offset by 4
so both stages can share descriptor set 0 (`vk_fs_ub_binding_offset`). -/
def vk_fs_ub_binding_offset : Nat := 4

/-- Mark every float-matrix uniform-block member (vector size and column
count both above 1) column-major (`fix_ub_matrix_force_colmajor`). -/
def fix_ub_matrix_force_colmajor (c : compiler_t) : compiler_t :=
  { c with uniform_buffers := c.uniform_buffers.map fun ub =>
      { ub with members := ub.members.map fun m =>
          if m.ty.basetype = .float ∧ m.ty.vecsize > 1 ∧ m.ty.columns > 1 then
            { m with colmajor := true }
          else m } }

/-- The `ub_slot++` loop of `fix_bind_slots`: put every uniform buffer in
descriptor set 0 with sequential bindings from the given start slot. -/
def assign_ub_slots (slot : Nat) : List ub_resource_t → List ub_resource_t
  | [] => []
  | ub :: rest => { ub with set_dec := 0, binding_dec := slot } :: assign_ub_slots (slot + 1) rest

/-- The `img_slot++` loop of `fix_bind_slots`: put every sampled image in the
given descriptor set with sequential bindings from the given start slot. -/
def assign_img_slots (img_set : Nat) (slot : Nat) : List img_resource_t → List img_resource_t
  | [] => []
  | img :: rest => { img with set_dec := img_set, binding_dec := slot } :: assign_img_slots img_set (slot + 1) rest

/-- Overwrite every resource's descriptor-set and binding decorations
(`fix_bind_slots`): uniform blocks go to set 0 with sequential bindings
(starting at `vk_fs_ub_binding_offset` for a Vulkan-style fragment shader,
at 0 otherwise); images go to set 1 (vertex) or set 2 (fragment) with
sequential bindings from 0. -/
def fix_bind_slots (c : compiler_t) (type : snippet_type_t) (is_vulkan : Bool) : compiler_t :=
  let ub_slot : Nat :=
    if is_vulkan then (if type = .VS then 0 else vk_fs_ub_binding_offset) else 0
  let img_set : Nat := if type = .VS then 1 else 2
  { c with uniform_buffers := assign_ub_slots ub_slot c.uniform_buffers,
           sampled_images := assign_img_slots img_set 0 c.sampled_images }

/-- Mark every uniform block flattened into a vec4 array
(`flatten_uniform_blocks`, which calls `flatten_buffer_block` per block). -/
def flatten_uniform_blocks (c : compiler_t) : compiler_t :=
  { c with uniform_buffers := c.uniform_buffers.map fun ub => { ub with flattened := true } }

/-- Map a member type to the uniform value-type tag
(`spirtype_to_uniform_type`): float scalars and vectors by vector size, the
4x4 float matrix, everything else invalid. -/
def spirtype_to_uniform_type (t : member_type_t) : uniform_type_t :=
  if t.basetype = .float then
    if t.columns = 1 then
      match t.vecsize with
      | 1 => .FLOAT
      | 2 => .FLOAT2
      | 3 => .FLOAT3
      | 4 => .FLOAT4
      | _ => .INVALID
    else
      if t.vecsize = 4 ∧ t.columns = 4 then .MAT4 else .INVALID
  else .INVALID

/-- Map image dimensionality and arrayed-ness to the image type tag
(`spirtype_to_image_type`): 2D-array only when 2D and arrayed; 2D, cube and
3D when not arrayed; everything else invalid. -/
def spirtype_to_image_type (dim : spv_dim_t) (arrayed : Bool) : image_type_t :=
  if arrayed then
    match dim with
    | .Dim2D => .IMAGE_ARRAY
    | _ => .INVALID
  else
    match dim with
    | .Dim2D => .IMAGE_2D
    | .DimCube => .IMAGE_CUBE
    | .Dim3D => .IMAGE_3D
    | _ => .INVALID

/-- Map a sampled-component base type to the image base-type tag
(`spirtype_to_image_basetype`): signed integer family, unsigned integer
family, everything else float. -/
def spirtype_to_image_basetype (t : spir_basetype_t) : image_basetype_t :=
  match t with
  | .sint => .SINT
  | .short => .SINT
  | .sbyte => .SINT
  | .uint => .UINT
  | .ushort => .UINT
  | .ubyte => .UINT
  | _ => .FLOAT

/-- The reflection attribute built for one stage-I/O resource
(`parse_reflection`): slot and synthetic semantic index from the location
decoration, constant semantic name. -/
def reflect_stage_attr (r : stage_attr_t) : attr_t :=
  { slot := (r.location : Int), name := r.name, sem_name := "TEXCOORD",
    sem_index := (r.location : Int) }

/-- The stage-I/O store loop of `parse_reflection`: each resource is written
into the fixed-size slot-indexed array at its location decoration.  The raw
C++ array store has no bounds check; an out-of-range location is an
out-of-bounds write, modelled as `none`. -/
def store_attrs (arr : List attr_t) : List stage_attr_t → Option (List attr_t)
  | [] => some arr
  | r :: rest =>
    if r.location < arr.length then
      store_attrs (arr.set r.location (reflect_stage_attr r)) rest
    else
      none

/-- One uniform-block member of the reflection walk (`parse_reflection`):
name, mapped value type, leading array dimension (0 when not an array),
byte offset. -/
def parse_uniform (m : ub_member_t) : uniform_t :=
  { name := m.name,
    type := spirtype_to_uniform_type m.ty,
    array_count := match m.ty.array with | [] => 0 | n :: _ => n,
    offset := m.offset }

/-- One uniform block of the reflection walk (`parse_reflection`): slot from
the binding decoration, shifted back by `vk_fs_ub_binding_offset` for a
Vulkan-style target when at or above the offset; declared size; members in
declaration order. -/
def parse_uniform_block (is_vulkan : Bool) (ub : ub_resource_t) : uniform_block_t :=
  let slot0 : Int := (ub.binding_dec : Int)
  let slot : Int :=
    if is_vulkan ∧ slot0 ≥ (vk_fs_ub_binding_offset : Int) then slot0 - 4 else slot0
  { slot := slot,
    size := ub.declared_size,
    name := ub.name,
    uniforms := ub.members.map parse_uniform,
    unique_index := -1 }

/-- One image of the reflection walk (`parse_reflection`): slot from the
binding decoration, mapped dimensionality and base type. -/
def parse_image (img : img_resource_t) : image_t :=
  { slot := (img.binding_dec : Int),
    name := img.name,
    type := spirtype_to_image_type img.dim img.arrayed,
    base_type := spirtype_to_image_basetype img.sampled_basetype,
    unique_index := -1 }

/-- Build the normalized reflection record from the compiler state
(`parse_reflection`).  `none` models the undefined behaviour of an
out-of-bounds stage-I/O attribute store. -/
def parse_reflection (c : compiler_t) (is_vulkan : Bool) : Option spirvcross_refl_t :=
  let stage : stage_t :=
    match c.exec_model with
    | .Vertex => .VS
    | .Fragment => .FS
    | .Other => .INVALID
  let entry : String :=
    match c.entry_points.find? (fun p => p.1 = c.exec_model) with
    | some p => p.2
    | none => ""
  match store_attrs (List.replicate attr_NUM {}) c.stage_inputs with
  | none => none
  | some ins =>
    match store_attrs (List.replicate attr_NUM {}) c.stage_outputs with
    | none => none
    | some outs =>
      some { stage := stage,
             entry_point := entry,
             inputs := ins,
             outputs := outs,
             uniform_blocks := c.uniform_buffers.map (parse_uniform_block is_vulkan),
             images := c.sampled_images.map parse_image }

/-- Metal platform selector (`CompilerMSL::Options::Platform`). -/
inductive msl_platform_t
  | macOS
  | iOS
deriving DecidableEq

/-- The pre-compile state of the GLSL path (`to_glsl`): bind-slot assignment,
column-major fixup, then uniform-block flattening for non-Vulkan targets. -/
def glsl_precompile (c : compiler_t) (is_vulkan : Bool) (type : snippet_type_t) : compiler_t :=
  let c1 := fix_bind_slots c type is_vulkan
  let c2 := fix_ub_matrix_force_colmajor c1
  if is_vulkan then c2 else flatten_uniform_blocks c2

/-- The pre-compile state of the HLSL path (`to_hlsl5`): bind-slot assignment
(non-Vulkan) and column-major fixup. -/
def hlsl5_precompile (c : compiler_t) (type : snippet_type_t) : compiler_t :=
  fix_ub_matrix_force_colmajor (fix_bind_slots c type false)

/-- The pre-compile state of the Metal path (`to_msl`): bind-slot assignment
(non-Vulkan) only. -/
def msl_precompile (c : compiler_t) (type : snippet_type_t) : compiler_t :=
  fix_bind_slots c type false

/-- Translate one blob to GLSL (`to_glsl`).  `c` is the compiler constructed
from the bytecode and `compiled` is the oracle result of the external
`compiler.compile()` call; an empty result leaves the default (invalid)
source.  The version/ES/option arguments configure only the external
compile and are kept for faithfulness. -/
def to_glsl (c : compiler_t) (compiled : String) (glsl_version : Nat) (is_gles : Bool)
    (is_vulkan : Bool) (opt_mask : Nat) (type : snippet_type_t) : Option spirvcross_source_t :=
  let _ := glsl_version
  let _ := is_gles
  let _ := opt_mask
  let c3 := glsl_precompile c is_vulkan type
  if compiled = "" then some {}
  else
    match parse_reflection c3 is_vulkan with
    | none => none
    | some refl => some { valid := true, source_code := compiled, refl := refl }

/-- Translate one blob to HLSL shader model 5 (`to_hlsl5`). -/
def to_hlsl5 (c : compiler_t) (compiled : String) (opt_mask : Nat)
    (type : snippet_type_t) : Option spirvcross_source_t :=
  let _ := opt_mask
  let c2 := hlsl5_precompile c type
  if compiled = "" then some {}
  else
    match parse_reflection c2 false with
    | none => none
    | some refl => some { valid := true, source_code := compiled, refl := refl }

/-- Translate one blob to Metal (`to_msl`).  Metal entry-point functions are
renamed by appending "0" because `main` is reserved. -/
def to_msl (c : compiler_t) (compiled : String) (plat : msl_platform_t) (opt_mask : Nat)
    (type : snippet_type_t) : Option spirvcross_source_t :=
  let _ := plat
  let _ := opt_mask
  let c2 := msl_precompile c type
  if compiled = "" then some {}
  else
    match parse_reflection c2 false with
    | none => none
    | some refl =>
      some { valid := true, source_code := compiled,
             refl := { refl with entry_point := refl.entry_point ++ "0" } }

/-- The per-target dispatch of `spirvcross_t::translate` (the `switch` over
`slang`).  `mkc` models constructing the SPIRV-Cross compiler from the blob
bytecode, `out` the text produced by its `compile()` call. -/
def cross_compile (mkc : spirv_blob_t → compiler_t) (out : spirv_blob_t → String)
    (slang : slang_t) (opt_mask : Nat) (type : snippet_type_t)
    (blob : spirv_blob_t) : Option spirvcross_source_t :=
  match slang with
  | .GLSL330 => to_glsl (mkc blob) (out blob) 330 false false opt_mask type
  | .GLSL100 => to_glsl (mkc blob) (out blob) 100 true false opt_mask type
  | .GLSL300ES => to_glsl (mkc blob) (out blob) 300 true false opt_mask type
  | .HLSL5 => to_hlsl5 (mkc blob) (out blob) opt_mask type
  | .METAL_MACOS => to_msl (mkc blob) (out blob) .macOS opt_mask type
  | .METAL_IOS => to_msl (mkc blob) (out blob) .iOS opt_mask type
  | .METAL_SIM => to_msl (mkc blob) (out blob) .iOS opt_mask type
  | .WGPU => to_glsl (mkc blob) (out blob) 450 false true opt_mask type

/-! ## Cross-shader deduplication -/

/-- Linear pool lookup by name (`find_unique_uniform_block_by_name`): index
of the first entry with the given name, or −1. -/
def find_unique_uniform_block_by_name (pool : List uniform_block_t) (name : String) : Int :=
  match pool with
  | [] => -1
  | ub :: rest =>
    if ub.name = name then 0
    else
      let i := find_unique_uniform_block_by_name rest name
      if i ≥ 0 then i + 1 else -1

/-- Linear pool lookup by name (`find_unique_image_by_name`): index of the
first entry with the given name, or −1. -/
def find_unique_image_by_name (pool : List image_t) (name : String) : Int :=
  match pool with
  | [] => -1
  | img :: rest =>
    if img.name = name then 0
    else
      let i := find_unique_image_by_name rest name
      if i ≥ 0 then i + 1 else -1

/-- The inner loop of `gather_unique_uniform_blocks` over one source's
uniform blocks: look up each block by name in the pool; a structurally equal
hit reuses that pool index as `unique_index`; a structurally different hit
stops immediately with a conflict error (the remaining blocks are left
untouched); a miss appends the block with `unique_index` equal to the pool
size before the append. -/
def gather_ubs (bp : String) : List uniform_block_t → List uniform_block_t →
    List uniform_block_t × List uniform_block_t × Option errmsg_t
  | [], pool => ([], pool, none)
  | ub :: rest, pool =>
    let i := find_unique_uniform_block_by_name pool ub.name
    if i ≥ 0 then
      if ub.equals (pool.getD i.toNat {}) then
        let r := gather_ubs bp rest pool
        ({ ub with unique_index := i } :: r.1, r.2.1, r.2.2)
      else
        (ub :: rest, pool, some (errmsg_t.error bp 0 (.conflicting_ub ub.name)))
    else
      let r := gather_ubs bp rest (pool ++ [{ ub with unique_index := (pool.length : Int) }])
      ({ ub with unique_index := (pool.length : Int) } :: r.1, r.2.1, r.2.2)

/-- The outer loop of `gather_unique_uniform_blocks` over all sources,
threading the pool; stops at the first conflict, leaving later sources
untouched. -/
def gather_ubs_srcs (bp : String) : List spirvcross_source_t → List uniform_block_t →
    List spirvcross_source_t × List uniform_block_t × Option errmsg_t
  | [], pool => ([], pool, none)
  | src :: rest, pool =>
    let r := gather_ubs bp src.refl.uniform_blocks pool
    let src' := { src with refl := { src.refl with uniform_blocks := r.1 } }
    match r.2.2 with
    | some err => (src' :: rest, r.2.1, some err)
    | none =>
      let r2 := gather_ubs_srcs bp rest r.2.1
      (src' :: r2.1, r2.2.1, r2.2.2)

/-- Find all identical uniform blocks across all shaders and check for
collisions (`gather_unique_uniform_blocks`); on conflict the error slot is
set and `false` is returned. -/
def gather_unique_uniform_blocks (inp : input_t) (spv : spirvcross_t) : spirvcross_t × Bool :=
  let r := gather_ubs_srcs inp.base_path spv.sources spv.unique_uniform_blocks
  match r.2.2 with
  | some err =>
    ({ spv with sources := r.1, unique_uniform_blocks := r.2.1, error := err }, false)
  | none =>
    ({ spv with sources := r.1, unique_uniform_blocks := r.2.1 }, true)

/-- The inner loop of `gather_unique_images` over one source's images;
mirrors `gather_ubs`. -/
def gather_imgs (bp : String) : List image_t → List image_t →
    List image_t × List image_t × Option errmsg_t
  | [], pool => ([], pool, none)
  | img :: rest, pool =>
    let i := find_unique_image_by_name pool img.name
    if i ≥ 0 then
      if img.equals (pool.getD i.toNat {}) then
        let r := gather_imgs bp rest pool
        ({ img with unique_index := i } :: r.1, r.2.1, r.2.2)
      else
        (img :: rest, pool, some (errmsg_t.error bp 0 (.conflicting_img img.name)))
    else
      let r := gather_imgs bp rest (pool ++ [{ img with unique_index := (pool.length : Int) }])
      ({ img with unique_index := (pool.length : Int) } :: r.1, r.2.1, r.2.2)

/-- The outer loop of `gather_unique_images` over all sources; mirrors
`gather_ubs_srcs`. -/
def gather_imgs_srcs (bp : String) : List spirvcross_source_t → List image_t →
    List spirvcross_source_t × List image_t × Option errmsg_t
  | [], pool => ([], pool, none)
  | src :: rest, pool =>
    let r := gather_imgs bp src.refl.images pool
    let src' := { src with refl := { src.refl with images := r.1 } }
    match r.2.2 with
    | some err => (src' :: rest, r.2.1, some err)
    | none =>
      let r2 := gather_imgs_srcs bp rest r.2.1
      (src' :: r2.1, r2.2.1, r2.2.2)

/-- Find all identical images across all shaders and check for collisions
(`gather_unique_images`); on conflict the error slot is set and `false` is
returned. -/
def gather_unique_images (inp : input_t) (spv : spirvcross_t) : spirvcross_t × Bool :=
  let r := gather_imgs_srcs inp.base_path spv.sources spv.unique_images
  match r.2.2 with
  | some err =>
    ({ spv with sources := r.1, unique_images := r.2.1, error := err }, false)
  | none =>
    ({ spv with sources := r.1, unique_images := r.2.1 }, true)

/-! ## Interface validation -/

/-- Linear search for the translated source of a snippet
(`spirvcross_t::find_source_by_snippet_index`): first index whose
`snippet_index` matches, or −1. -/
def spirvcross_t.find_source_by_snippet_index (spv : spirvcross_t) (snippet_index : Nat) : Int :=
  go spv.sources
where
  go : List spirvcross_source_t → Int
  | [] => -1
  | src :: rest =>
    if src.snippet_index = snippet_index then 0
    else
      let i := go rest
      if i ≥ 0 then i + 1 else -1

/-- The attribute-slot loop of `validate_linking` for one program: compare
vertex outputs against fragment inputs slot by slot; the first mismatch
builds an error naming both shaders, the slot index and both attribute
names.  `count` counts the remaining slots of the fixed `attr_t::NUM`-sized
arrays starting at index `i`. -/
def link_check (inp : input_t) (prog : program_t) (vs fs : spirvcross_source_t)
    (i : Nat) : Nat → errmsg_t
  | 0 => {}
  | count + 1 =>
    let vs_out := vs.refl.outputs.getD i {}
    let fs_inp := fs.refl.inputs.getD i {}
    if vs_out.equals fs_inp then
      link_check inp prog vs fs (i + 1) count
    else
      inp.error prog.line_index
        (.link_mismatch prog.vs_name prog.fs_name i vs_out.name fs_inp.name)

/-- Association-list lookup modelling `std::map::at`; `none` models the
exception thrown on a missing key. -/
def map_at (m : List (String × Nat)) (key : String) : Option Nat :=
  match m.find? (fun p => p.1 = key) with
  | some p => some p.2
  | none => none

/-- Check that vertex-shader outputs match fragment-shader inputs for every
declared program (`validate_linking`).  Returns the first mismatch error, or
an invalid (empty) error record on success; `none` models a violated
precondition (missing map key or failed source-lookup assertion). -/
def validate_linking (inp : input_t) (spv : spirvcross_t) : Option errmsg_t :=
  go inp.programs
where
  go : List program_t → Option errmsg_t
  | [] => some {}
  | prog :: rest =>
    match map_at inp.vs_map prog.vs_name, map_at inp.fs_map prog.fs_name with
    | some vs_snippet_index, some fs_snippet_index =>
      let vs_src_index := spv.find_source_by_snippet_index vs_snippet_index
      let fs_src_index := spv.find_source_by_snippet_index fs_snippet_index
      if vs_src_index ≥ 0 ∧ fs_src_index ≥ 0 then
        let vs_src := spv.sources.getD vs_src_index.toNat {}
        let fs_src := spv.sources.getD fs_src_index.toNat {}
        let e := link_check inp prog vs_src fs_src 0 attr_NUM
        if e.valid then some e else go rest
      else
        none
    | _, _ => none

/-! ## The per-target translation pass -/

/-- One iteration of the blob loop of `spirvcross_t::translate`:
cross-compile the blob; an invalid result sets a translation-failure error
located at the snippet's first line and stops the pass (`Sum.inl`); a valid
result is appended to the sources and both gatherers run (over all sources
so far), each stopping the pass on conflict (`Sum.inl`); otherwise the loop
continues with the updated pass state (`Sum.inr`).  `none` models a violated
precondition (stage assertion or out-of-bounds reflection store). -/
def translate_step (mkc : spirv_blob_t → compiler_t) (out : spirv_blob_t → String)
    (inp : input_t) (slang : slang_t) (blob : spirv_blob_t) (spv : spirvcross_t) :
    Option (spirvcross_t ⊕ spirvcross_t) :=
  let snippet := inp.snippets.getD blob.snippet_index {}
  let opt_mask := snippet.options slang
  let type := snippet.type
  if type = .VS ∨ type = .FS then
    match cross_compile mkc out slang opt_mask type blob with
    | none => none
    | some src =>
      if src.valid then
        let spv1 := { spv with
          sources := spv.sources ++ [{ src with snippet_index := blob.snippet_index }] }
        let g1 := gather_unique_uniform_blocks inp spv1
        if g1.2 then
          let g2 := gather_unique_images inp g1.1
          if g2.2 then some (.inr g2.1)
          else some (.inl g2.1)
        else some (.inl g1.1)
      else
        let line := snippet.lines.getD 0 0
        some (.inl { spv with error := inp.error line (.failed_cross_compile slang) })
  else
    none

/-- The blob loop of `spirvcross_t::translate`: run `translate_step` per
blob, returning immediately on a stopping step. -/
def translate_loop (mkc : spirv_blob_t → compiler_t) (out : spirv_blob_t → String)
    (inp : input_t) (slang : slang_t) :
    List spirv_blob_t → spirvcross_t → Option spirvcross_t
  | [], spv => some spv
  | blob :: rest, spv =>
    match translate_step mkc out inp slang blob spv with
    | none => none
    | some (.inl stop) => some stop
    | some (.inr next) => translate_loop mkc out inp slang rest next

/-- Translate all blobs for one target (`spirvcross_t::translate`): run the
blob loop from the empty pass state; if it stopped with an error, return
immediately; otherwise run the interface validator and record its error, if
any. -/
def spirvcross_translate (mkc : spirv_blob_t → compiler_t) (out : spirv_blob_t → String)
    (inp : input_t) (spirv : spirv_t) (slang : slang_t) : Option spirvcross_t :=
  match translate_loop mkc out inp slang spirv.blobs {} with
  | none => none
  | some spv =>
    if spv.error.valid then some spv
    else
      match validate_linking inp spv with
      | none => none
      | some err =>
        if err.valid then some { spv with error := err } else some spv

/-! ## Bare binary serialization

The byte stream is modelled as `List Nat` with every element below 256.
Multi-byte integers are little-endian; the C++ int-to-narrower conversions
are modelled with explicit modular reduction.  A string is its character
codes (the C++ writes the raw `std::string` bytes); the precondition
assertion of `write_string` is modelled with `Option`. -/

/-- Little-endian bytes of a `u16` value (`write_u16` via `fwrite`); the
reduction models the C++ conversion to `uint16_t`. -/
def u16_bytes (v : Nat) : List Nat := [v % 256, v / 256 % 256]

/-- One byte (`write_byte`); the reduction models the C++ conversion to
`unsigned char`. -/
def byte_bytes (v : Nat) : List Nat := [v % 256]

/-- The character codes of a string (the raw bytes the C++ writes). -/
def str_bytes (s : String) : List Nat := s.data.map Char.toNat

/-- Write a string as a `u16` length followed by its bytes (`write_string`).
`none` models the violated precondition assertion
`str.size() < UINT16_MAX`, i.e. lengths of 65535 or more. -/
def write_string (s : String) : Option (List Nat) :=
  if s.length < 65535 then some (u16_bytes s.length ++ str_bytes s) else none

/-- Binary encoding of the stage tag (the byte cast of `stage_t`):
0 = invalid, 1 = vertex, 2 = fragment. -/
def stage_code : stage_t → Nat
  | .INVALID => 0
  | .VS => 1
  | .FS => 2

/-- Binary encoding of the uniform value-type tag (the byte cast of
`uniform_t::type_t`, enum declaration order). -/
def uniform_type_code : uniform_type_t → Nat
  | .INVALID => 0
  | .FLOAT => 1
  | .FLOAT2 => 2
  | .FLOAT3 => 3
  | .FLOAT4 => 4
  | .MAT4 => 5

/-- Binary encoding of the image dimensionality tag (the byte cast of
`image_t::type_t`, enum declaration order). -/
def image_type_code : image_type_t → Nat
  | .INVALID => 0
  | .IMAGE_2D => 1
  | .IMAGE_CUBE => 2
  | .IMAGE_3D => 3
  | .IMAGE_ARRAY => 4

/-- Binary encoding of the image base-type tag (the byte cast of
`image_t::basetype_t`, enum declaration order). -/
def image_basetype_code : image_basetype_t → Nat
  | .FLOAT => 0
  | .SINT => 1
  | .UINT => 2

/-- Write one attribute (`write_attr`): name, slot as `u16`, semantic name,
semantic index as byte. -/
def write_attr (a : attr_t) : Option (List Nat) := do
  let n ← write_string a.name
  let sn ← write_string a.sem_name
  pure (n ++ u16_bytes (a.slot % 65536).toNat ++ sn ++ byte_bytes (a.sem_index % 256).toNat)

/-- The per-member body of the `write_uniform_block` loop: name, type byte,
array count `u16`, offset `u16`. -/
def write_uniform (u : uniform_t) : Option (List Nat) := do
  let n ← write_string u.name
  pure (n ++ byte_bytes (uniform_type_code u.type) ++ u16_bytes u.array_count
          ++ u16_bytes u.offset)

/-- Write one uniform block (`write_uniform_block`): member count as `u16`,
then per member its name, type byte, array count `u16` and offset `u16`.
The block name, binding slot and byte size are not written. -/
def write_uniform_block (ub : uniform_block_t) : Option (List Nat) := do
  let members ← ub.uniforms.mapM write_uniform
  pure (u16_bytes ub.uniforms.length ++ members.flatten)

/-- Write one image (`write_image`): name, slot as `u16`, type byte, base
type byte.  The `unique_index` is not written. -/
def write_image (img : image_t) : Option (List Nat) := do
  let n ← write_string img.name
  pure (n ++ u16_bytes (img.slot % 65536).toNat ++ byte_bytes (image_type_code img.type)
          ++ byte_bytes (image_basetype_code img.base_type))

/-- The binary format version (`BINARY_FORMAT_VERSION`). -/
def BINARY_FORMAT_VERSION : Nat := 1

/-- Write one reflection record in the bare binary format
(`spirvcross_t::write_binary_reflection_info`): magic "SHDC", version,
stage byte, entry-point string, then counted input attributes, output
attributes, uniform blocks and images.  Only attributes with a
non-sentinel slot are counted and written. -/
def write_binary_reflection_info (refl : spirvcross_refl_t) : Option (List Nat) := do
  let entry ← write_string refl.entry_point
  let ins := refl.inputs.filter (fun a => a.slot ≥ 0)
  let ins_bytes ← ins.mapM write_attr
  let outs := refl.outputs.filter (fun a => a.slot ≥ 0)
  let outs_bytes ← outs.mapM write_attr
  let ub_bytes ← refl.uniform_blocks.mapM write_uniform_block
  let img_bytes ← refl.images.mapM write_image
  pure (str_bytes "SHDC" ++ u16_bytes BINARY_FORMAT_VERSION
        ++ byte_bytes (stage_code refl.stage) ++ entry
        ++ u16_bytes ins.length ++ ins_bytes.flatten
        ++ u16_bytes outs.length ++ outs_bytes.flatten
        ++ u16_bytes refl.uniform_blocks.length ++ ub_bytes.flatten
        ++ u16_bytes refl.images.length ++ img_bytes.flatten)

/-! ## A reader for the binary format, written against the layout table

The reader decodes the byte stream back into the fields it can recover; it
exists to settle the round-trip claim.  Uniform blocks are recovered only as
their ordered member lists (the stream holds neither block name, slot nor
size), and images without their `unique_index`. -/

/-- Read one byte. -/
def readByte : List Nat → Option (Nat × List Nat)
  | [] => none
  | b :: rest => some (b, rest)

/-- Read a little-endian `u16`. -/
def readU16 : List Nat → Option (Nat × List Nat)
  | b0 :: b1 :: rest => some (b0 + 256 * b1, rest)
  | _ => none

/-- Read exactly `n` bytes. -/
def readBytes : Nat → List Nat → Option (List Nat × List Nat)
  | 0, l => some ([], l)
  | _ + 1, [] => none
  | n + 1, b :: rest =>
    match readBytes n rest with
    | some (bs, l) => some (b :: bs, l)
    | none => none

/-- Read a length-prefixed string. -/
def readString (l : List Nat) : Option (String × List Nat) :=
  match readU16 l with
  | some (n, l1) =>
    match readBytes n l1 with
    | some (bs, l2) => some (String.mk (bs.map Char.ofNat), l2)
    | none => none
  | none => none

/-- Read `n` records with the given record reader. -/
def readList (f : List Nat → Option (α × List Nat)) :
    Nat → List Nat → Option (List α × List Nat)
  | 0, l => some ([], l)
  | n + 1, l =>
    match f l with
    | some (x, l1) =>
      match readList f n l1 with
      | some (xs, l2) => some (x :: xs, l2)
      | none => none
    | none => none

/-- Decode a stage byte. -/
def stage_of_code (n : Nat) : Option stage_t :=
  match n with
  | 0 => some .INVALID
  | 1 => some .VS
  | 2 => some .FS
  | _ => none

/-- Decode a uniform value-type byte. -/
def uniform_type_of_code (n : Nat) : Option uniform_type_t :=
  match n with
  | 0 => some .INVALID
  | 1 => some .FLOAT
  | 2 => some .FLOAT2
  | 3 => some .FLOAT3
  | 4 => some .FLOAT4
  | 5 => some .MAT4
  | _ => none

/-- Decode an image dimensionality byte. -/
def image_type_of_code (n : Nat) : Option image_type_t :=
  match n with
  | 0 => some .INVALID
  | 1 => some .IMAGE_2D
  | 2 => some .IMAGE_CUBE
  | 3 => some .IMAGE_3D
  | 4 => some .IMAGE_ARRAY
  | _ => none

/-- Decode an image base-type byte. -/
def image_basetype_of_code (n : Nat) : Option image_basetype_t :=
  match n with
  | 0 => some .FLOAT
  | 1 => some .SINT
  | 2 => some .UINT
  | _ => none

/-- Read one attribute record. -/
def read_attr (l : List Nat) : Option (attr_t × List Nat) :=
  match readString l with
  | some (name, l1) =>
    match readU16 l1 with
    | some (slot, l2) =>
      match readString l2 with
      | some (sem_name, l3) =>
        match readByte l3 with
        | some (sem_index, l4) =>
          some ({ slot := (slot : Int), name := name, sem_name := sem_name,
                  sem_index := (sem_index : Int) }, l4)
        | none => none
      | none => none
    | none => none
  | none => none

/-- Read one uniform-member record. -/
def read_uniform (l : List Nat) : Option (uniform_t × List Nat) :=
  match readString l with
  | some (name, l1) =>
    match readByte l1 with
    | some (tc, l2) =>
      match uniform_type_of_code tc with
      | some ty =>
        match readU16 l2 with
        | some (array_count, l3) =>
          match readU16 l3 with
          | some (offset, l4) =>
            some ({ name := name, type := ty, array_count := array_count,
                    offset := offset }, l4)
          | none => none
        | none => none
      | none => none
    | none => none
  | none => none

/-- Read one uniform-block record: a counted member list. -/
def read_uniform_block (l : List Nat) : Option (List uniform_t × List Nat) :=
  match readU16 l with
  | some (n, l1) => readList read_uniform n l1
  | none => none

/-- An image as recoverable from the stream: every `image_t` field except
`unique_index`. -/
structure read_image_t where
  name : String := ""
  slot : Nat := 0
  type : image_type_t := .INVALID
  base_type : image_basetype_t := .FLOAT
deriving DecidableEq

/-- Read one image record. -/
def read_image (l : List Nat) : Option (read_image_t × List Nat) :=
  match readString l with
  | some (name, l1) =>
    match readU16 l1 with
    | some (slot, l2) =>
      match readByte l2 with
      | some (tc, l3) =>
        match image_type_of_code tc with
        | some ty =>
          match readByte l3 with
          | some (bc, l4) =>
            match image_basetype_of_code bc with
            | some bt =>
              some ({ name := name, slot := slot, type := ty, base_type := bt }, l4)
            | none => none
          | none => none
        | none => none
      | none => none
    | none => none
  | none => none

/-- Rebuild a fixed-size slot-indexed attribute array from the attributes
read off the stream, placing each at its own slot. -/
def set_by_slot (arr : List attr_t) (l : List attr_t) : List attr_t :=
  l.foldl (fun a x => a.set x.slot.toNat x) arr

/-- What a reader can recover from one serialized reflection record: stage,
entry point, both attribute arrays, the ordered member list of every uniform
block, and every image without its `unique_index`. -/
structure read_refl_t where
  stage : stage_t := .INVALID
  entry_point : String := ""
  inputs : List attr_t := List.replicate attr_NUM {}
  outputs : List attr_t := List.replicate attr_NUM {}
  ub_uniforms : List (List uniform_t) := []
  images : List read_image_t := []
deriving DecidableEq

/-- Read one full reflection record following the layout table: magic,
version, stage, entry point, counted inputs, outputs, uniform blocks and
images, requiring the stream to end exactly there. -/
def read_reflection (l : List Nat) : Option read_refl_t :=
  match readBytes 4 l with
  | some (magic, l1) =>
    if magic = str_bytes "SHDC" then
      match readU16 l1 with
      | some (ver, l2) =>
        if ver = BINARY_FORMAT_VERSION then
          match readByte l2 with
          | some (sc, l3) =>
            match stage_of_code sc with
            | some stage =>
              match readString l3 with
              | some (entry, l4) =>
                match readU16 l4 with
                | some (icnt, l5) =>
                  match readList read_attr icnt l5 with
                  | some (ins, l6) =>
                    match readU16 l6 with
                    | some (ocnt, l7) =>
                      match readList read_attr ocnt l7 with
                      | some (outs, l8) =>
                        match readU16 l8 with
                        | some (ubcnt, l9) =>
                          match readList read_uniform_block ubcnt l9 with
                          | some (ubs, l10) =>
                            match readU16 l10 with
                            | some (imgcnt, l11) =>
                              match readList read_image imgcnt l11 with
                              | some (imgs, l12) =>
                                if l12 = [] then
                                  some { stage := stage,
                                         entry_point := entry,
                                         inputs := set_by_slot (List.replicate attr_NUM {}) ins,
                                         outputs := set_by_slot (List.replicate attr_NUM {}) outs,
                                         ub_uniforms := ubs,
                                         images := imgs }
                                else none
                              | none => none
                            | none => none
                          | none => none
                        | none => none
                      | none => none
                    | none => none
                  | none => none
                | none => none
              | none => none
            | none => none
          | none => none
        else none
      | none => none
    else none
  | none => none

/-! ## Helper lemmas -/

theorem getD_of_lt {α} (l : List α) (d : α) (i : Nat) (h : i < l.length) :
    l.getD i d = l.get ⟨i, h⟩ := by
  simp [List.getD_eq_getElem?_getD, List.getElem?_eq_getElem h]

theorem getD_of_ge {α} (l : List α) (d : α) (i : Nat) (h : l.length ≤ i) :
    l.getD i d = d := by
  simp [List.getD_eq_getElem?_getD, List.getElem?_eq_none h]

theorem assign_ub_slots_length (l : List ub_resource_t) (s : Nat) :
    (assign_ub_slots s l).length = l.length := by
  induction l generalizing s with
  | nil => rfl
  | cons hd tl ih => simp [assign_ub_slots, ih]

theorem assign_ub_slots_getD (l : List ub_resource_t) (s i : Nat) (h : i < l.length) :
    (assign_ub_slots s l).getD i {} = { l.getD i {} with set_dec := 0, binding_dec := s + i } := by
  induction l generalizing s i with
  | nil => simp at h
  | cons hd tl ih =>
    cases i with
    | zero => simp [assign_ub_slots]
    | succ j =>
      have hj : j < tl.length := by simpa using h
      have := ih (s + 1) j hj
      simp only [assign_ub_slots, List.getD_cons_succ]
      rw [this]
      have : s + 1 + j = s + (j + 1) := by omega
      rw [this]

theorem assign_img_slots_length (l : List img_resource_t) (gs s : Nat) :
    (assign_img_slots gs s l).length = l.length := by
  induction l generalizing s with
  | nil => rfl
  | cons hd tl ih => simp [assign_img_slots, ih]

theorem assign_img_slots_getD (l : List img_resource_t) (gs s i : Nat) (h : i < l.length) :
    (assign_img_slots gs s l).getD i {}
      = { l.getD i {} with set_dec := gs, binding_dec := s + i } := by
  induction l generalizing s i with
  | nil => simp at h
  | cons hd tl ih =>
    cases i with
    | zero => simp [assign_img_slots]
    | succ j =>
      have hj : j < tl.length := by simpa using h
      have := ih (s + 1) j hj
      simp only [assign_img_slots, List.getD_cons_succ]
      rw [this]
      have : s + 1 + j = s + (j + 1) := by omega
      rw [this]

theorem getD_map_of_lt {α β} (f : α → β) (l : List α) (dα : α) (dβ : β) (i : Nat)
    (h : i < l.length) : (l.map f).getD i dβ = f (l.getD i dα) := by
  have h2 : i < (l.map f).length := by simpa using h
  rw [getD_of_lt _ _ _ h2, getD_of_lt _ _ _ h]
  simp

/-- If `parse_reflection` succeeds, the uniform-block list is the mapped
resource list. -/
theorem parse_reflection_uniform_blocks (c : compiler_t) (vk : Bool)
    (refl : spirvcross_refl_t) (h : parse_reflection c vk = some refl) :
    refl.uniform_blocks = c.uniform_buffers.map (parse_uniform_block vk) := by
  unfold parse_reflection at h
  cases h1 : store_attrs (List.replicate attr_NUM {}) c.stage_inputs with
  | none => rw [h1] at h; simp at h
  | some ins =>
    cases h2 : store_attrs (List.replicate attr_NUM {}) c.stage_outputs with
    | none => rw [h1, h2] at h; simp at h
    | some outs =>
      rw [h1, h2] at h
      simp only [Option.some.injEq] at h
      rw [← h]

/-! ## C5 -/

/-- C5: for every shader stage, every target flavor (the Vulkan flag, which
the dispatch also sets for WebGPU) and every prior decoration state,
`fix_bind_slots` unconditionally overwrites every resource's descriptor-set
and binding decorations regardless of what they held before: uniform blocks
go to set 0 with sequential bindings in declaration order starting from 0
(from `vk_fs_ub_binding_offset` for a Vulkan-flavored fragment shader), and
sampled images go to set 1 for a vertex shader and set 2 for a fragment
shader with bindings 0,1,2,... in declaration order. -/
theorem c5_fix_bind_slots_overwrites (c : compiler_t) (type : snippet_type_t)
    (is_vulkan : Bool) (i : Nat) :
    (i < c.uniform_buffers.length →
      ((fix_bind_slots c type is_vulkan).uniform_buffers.getD i {}).set_dec = 0 ∧
      ((fix_bind_slots c type is_vulkan).uniform_buffers.getD i {}).binding_dec
        = (if is_vulkan then (if type = .VS then 0 else vk_fs_ub_binding_offset) else 0) + i) ∧
    (i < c.sampled_images.length →
      ((fix_bind_slots c type is_vulkan).sampled_images.getD i {}).set_dec
        = (if type = .VS then 1 else 2) ∧
      ((fix_bind_slots c type is_vulkan).sampled_images.getD i {}).binding_dec = i) := by
  constructor
  · intro h
    have := assign_ub_slots_getD c.uniform_buffers
      (if is_vulkan then (if type = .VS then 0 else vk_fs_ub_binding_offset) else 0) i h
    simp only [fix_bind_slots]
    rw [this]
    exact ⟨rfl, rfl⟩
  · intro h
    have := assign_img_slots_getD c.sampled_images (if type = .VS then 1 else 2) 0 i h
    simp only [fix_bind_slots]
    rw [this]
    exact ⟨rfl, by simp⟩

/-- Witness for C5 at a concrete compiler state with dirty prior
decorations. -/
def c5_cex : compiler_t :=
  { uniform_buffers := [{ name := "ubA", set_dec := 7, binding_dec := 9 },
                        { name := "ubB", set_dec := 3, binding_dec := 1 }],
    sampled_images := [{ name := "texA", set_dec := 5, binding_dec := 8 }] }

theorem c5_fix_bind_slots_overwrites_witness :
    (1 < c5_cex.uniform_buffers.length ∧
      ((fix_bind_slots c5_cex .FS false).uniform_buffers.getD 1 {}).set_dec = 0 ∧
      ((fix_bind_slots c5_cex .FS false).uniform_buffers.getD 1 {}).binding_dec
        = (if (false : Bool) then (if (snippet_type_t.FS) = .VS then 0 else vk_fs_ub_binding_offset) else 0) + 1) ∧
    (1 < c5_cex.uniform_buffers.length ∧
      ((fix_bind_slots c5_cex .FS true).uniform_buffers.getD 1 {}).set_dec = 0 ∧
      ((fix_bind_slots c5_cex .FS true).uniform_buffers.getD 1 {}).binding_dec
        = (if (true : Bool) then (if (snippet_type_t.FS) = .VS then 0 else vk_fs_ub_binding_offset) else 0) + 1) ∧
    (0 < c5_cex.sampled_images.length ∧
      ((fix_bind_slots c5_cex .FS false).sampled_images.getD 0 {}).set_dec
        = (if (snippet_type_t.FS) = .VS then 1 else 2) ∧
      ((fix_bind_slots c5_cex .FS false).sampled_images.getD 0 {}).binding_dec = 0) := by
  refine ⟨⟨by decide, (c5_fix_bind_slots_overwrites c5_cex .FS false 1).1 (by decide)⟩,
          ⟨by decide, (c5_fix_bind_slots_overwrites c5_cex .FS true 1).1 (by decide)⟩,
          ⟨by decide, (c5_fix_bind_slots_overwrites c5_cex .FS false 0).2 (by decide)⟩⟩

/-! ## C4 -/

/-- C4: on a Vulkan-style target the slot assigner binds the i-th
fragment-stage uniform block at exactly `vk_fs_ub_binding_offset + i`
(4 higher than the sequential-from-0 numbering) while vertex-stage blocks
get binding i from 0; the reflection extractor subtracts 4 from any
uniform-block binding at or above 4; composing the two, a fragment block at
declaration position i reflects as logical slot i (in particular position 0
is bound at 4 and reflects as slot 0), and a vertex block at position i < 4
is bound at i and reflects as slot i. -/
theorem c4_vulkan_fragment_offset (c : compiler_t) (type : snippet_type_t) (i : Nat)
    (refl : spirvcross_refl_t) :
    (i < c.uniform_buffers.length →
      ((fix_bind_slots c type true).uniform_buffers.getD i {}).binding_dec
        = (if type = .VS then i else vk_fs_ub_binding_offset + i)) ∧
    (∀ ub : ub_resource_t, (parse_uniform_block true ub).slot
        = (if (ub.binding_dec : Int) ≥ (vk_fs_ub_binding_offset : Int)
           then (ub.binding_dec : Int) - 4 else (ub.binding_dec : Int))) ∧
    (parse_reflection (fix_bind_slots c type true) true = some refl →
      i < c.uniform_buffers.length →
      (refl.uniform_blocks.getD i {}).slot
        = (if type = .VS then (if i < 4 then (i : Int) else (i : Int) - 4) else (i : Int))) := by
  have hbind : i < c.uniform_buffers.length →
      ((fix_bind_slots c type true).uniform_buffers.getD i {}).binding_dec
        = (if type = .VS then i else vk_fs_ub_binding_offset + i) := by
    intro h
    by_cases hvs : type = .VS
    · simp only [fix_bind_slots, hvs, if_true]
      rw [assign_ub_slots_getD c.uniform_buffers 0 i h]
      simp
    · simp only [fix_bind_slots, hvs, if_false, if_true]
      rw [assign_ub_slots_getD c.uniform_buffers vk_fs_ub_binding_offset i h]
  refine ⟨hbind, ?_, ?_⟩
  · intro ub
    simp only [parse_uniform_block, true_and]
  · intro hp h
    have hubs := parse_reflection_uniform_blocks _ _ _ hp
    have hlen : i < (fix_bind_slots c type true).uniform_buffers.length := by
      simpa [fix_bind_slots, assign_ub_slots_length] using h
    rw [hubs, getD_map_of_lt (parse_uniform_block true) _ {} {} i hlen]
    have hb := hbind h
    simp only [parse_uniform_block, true_and, vk_fs_ub_binding_offset]
    rw [hb]
    by_cases hvs : type = .VS
    · simp only [hvs, reduceIte]
      split <;> split <;> omega
    · simp only [hvs, reduceIte, vk_fs_ub_binding_offset]
      split <;> omega

/-- Witness for C4 at a concrete compiler state: a vertex and a fragment
uniform block, each at declaration position 0, bind at 0 and 4 and both
reflect as slot 0. -/
def c4_cex : compiler_t :=
  { uniform_buffers := [{ name := "params", set_dec := 3, binding_dec := 9,
                          declared_size := 16 }] }

theorem c4_vulkan_fragment_offset_witness :
    (0 < c4_cex.uniform_buffers.length ∧
      ((fix_bind_slots c4_cex .FS true).uniform_buffers.getD 0 {}).binding_dec
        = (if (snippet_type_t.FS) = .VS then 0 else vk_fs_ub_binding_offset + 0)) ∧
    (parse_reflection (fix_bind_slots c4_cex .FS true) true
        = some { stage := .INVALID, entry_point := "",
                 inputs := List.replicate attr_NUM {}, outputs := List.replicate attr_NUM {},
                 uniform_blocks := [{ slot := 0, size := 16, name := "params",
                                      uniforms := [], unique_index := -1 }],
                 images := [] } ∧
      (({ stage := .INVALID, entry_point := "",
          inputs := List.replicate attr_NUM {}, outputs := List.replicate attr_NUM {},
          uniform_blocks := [{ slot := 0, size := 16, name := "params",
                               uniforms := [], unique_index := -1 }],
          images := [] } : spirvcross_refl_t).uniform_blocks.getD 0 {}).slot
        = (if (snippet_type_t.FS) = .VS then (if 0 < 4 then (0 : Int) else (0 : Int) - 4)
           else ((0 : Nat) : Int))) := by
  constructor
  · exact ⟨by decide, (c4_vulkan_fragment_offset c4_cex .FS 0 {}).1 (by decide)⟩
  · refine ⟨by decide, ?_⟩
    exact (c4_vulkan_fragment_offset c4_cex .FS 0 _).2.2 (by decide) (by decide)

/-! ## C9 -/

/-- Every float-matrix uniform-block member is marked column-major after
`fix_ub_matrix_force_colmajor`. -/
theorem colmajor_after_fix (c : compiler_t) :
    ∀ ub ∈ (fix_ub_matrix_force_colmajor c).uniform_buffers, ∀ m ∈ ub.members,
      m.ty.basetype = .float → m.ty.vecsize > 1 → m.ty.columns > 1 → m.colmajor = true := by
  intro ub hub m hm h1 h2 h3
  simp only [fix_ub_matrix_force_colmajor, List.mem_map] at hub
  obtain ⟨ub0, _, rfl⟩ := hub
  simp only [List.mem_map] at hm
  obtain ⟨m0, _, rfl⟩ := hm
  by_cases hc : m0.ty.basetype = .float ∧ m0.ty.vecsize > 1 ∧ m0.ty.columns > 1
  · simp [hc]
  · simp only [hc, if_false] at h1 h2 h3 ⊢
    exact absurd ⟨h1, h2, h3⟩ hc

/-- C9 (amended): the GLSL and HLSL translation paths run the layout fixups
before the compile step, so in their pre-compile compiler state every
uniform-block member that is a float matrix (vector size > 1 and column
count > 1) is decorated column-major.  The Metal path runs only the
bind-slot assigner and does not apply the column-major fixup. -/
theorem c9_colmajor_glsl_hlsl (c : compiler_t) (vk : Bool) (type : snippet_type_t) :
    (∀ ub ∈ (glsl_precompile c vk type).uniform_buffers, ∀ m ∈ ub.members,
       m.ty.basetype = .float → m.ty.vecsize > 1 → m.ty.columns > 1 → m.colmajor = true) ∧
    (∀ ub ∈ (hlsl5_precompile c type).uniform_buffers, ∀ m ∈ ub.members,
       m.ty.basetype = .float → m.ty.vecsize > 1 → m.ty.columns > 1 → m.colmajor = true) := by
  constructor
  · intro ub hub m hm
    unfold glsl_precompile at hub
    cases vk with
    | false =>
      simp only [Bool.false_eq_true, if_false, flatten_uniform_blocks, List.mem_map] at hub
      obtain ⟨ub0, hub0, he⟩ := hub
      have hmem : m ∈ ub0.members := by
        rw [← he] at hm
        exact hm
      exact colmajor_after_fix _ ub0 hub0 m hmem
    | true =>
      exact colmajor_after_fix _ ub (by simpa using hub) m hm
  · intro ub hub m hm
    exact colmajor_after_fix _ ub hub m hm

/-- Concrete compiler state with one 4x4 float-matrix uniform-block member,
not column-major decorated. -/
def c9_cex_member : ub_member_t :=
  { name := "mvp", ty := { basetype := .float, vecsize := 4, columns := 4 } }

def c9_cex : compiler_t :=
  { uniform_buffers := [{ name := "params", members := [c9_cex_member] }] }

/-- C9 counterexample: in the Metal pre-compile pipeline the float-matrix
member stays undecorated (`colmajor = false`), refuting the claim for the
Metal snippet-target pairs. -/
theorem c9_metal_no_colmajor_cex :
    (((msl_precompile c9_cex .VS).uniform_buffers.getD 0 {}).members.getD 0 {}).ty.basetype
        = .float ∧
    (((msl_precompile c9_cex .VS).uniform_buffers.getD 0 {}).members.getD 0 {}).ty.vecsize > 1 ∧
    (((msl_precompile c9_cex .VS).uniform_buffers.getD 0 {}).members.getD 0 {}).ty.columns > 1 ∧
    (((msl_precompile c9_cex .VS).uniform_buffers.getD 0 {}).members.getD 0 {}).colmajor
        = false := by
  decide

/-- Witness for the amended C9 at the same concrete state: the GLSL and HLSL
pre-compile pipelines mark the member column-major. -/
theorem c9_colmajor_glsl_hlsl_witness :
    (((glsl_precompile c9_cex false .VS).uniform_buffers.getD 0 {}).members.getD 0 {}).colmajor
        = true ∧
    (((hlsl5_precompile c9_cex .VS).uniform_buffers.getD 0 {}).members.getD 0 {}).colmajor
        = true := by
  constructor
  · exact (c9_colmajor_glsl_hlsl c9_cex false .VS).1
      ((glsl_precompile c9_cex false .VS).uniform_buffers.getD 0 {}) (by decide)
      (((glsl_precompile c9_cex false .VS).uniform_buffers.getD 0 {}).members.getD 0 {})
      (by decide) (by decide) (by decide) (by decide)
  · exact (c9_colmajor_glsl_hlsl c9_cex false .VS).2
      ((hlsl5_precompile c9_cex .VS).uniform_buffers.getD 0 {}) (by decide)
      (((hlsl5_precompile c9_cex .VS).uniform_buffers.getD 0 {}).members.getD 0 {})
      (by decide) (by decide) (by decide) (by decide)

/-! ## C8 -/

/-- C8: only the Metal translation path renames the reflected entry point,
appending the suffix "0" (a reported `main` becomes `main0`); the GLSL and
HLSL paths put the translator-reported entry-point name into the reflection
record unmodified. -/
theorem c8_entry_point_renaming :
    (∀ (c : compiler_t) (compiled : String) (plat : msl_platform_t) (mask : Nat)
        (type : snippet_type_t) (refl : spirvcross_refl_t),
      compiled ≠ "" → parse_reflection (msl_precompile c type) false = some refl →
      ∃ src, to_msl c compiled plat mask type = some src ∧ src.valid = true ∧
        src.refl.entry_point = refl.entry_point ++ "0" ∧
        (refl.entry_point = "main" → src.refl.entry_point = "main0")) ∧
    (∀ (c : compiler_t) (compiled : String) (v : Nat) (ges vk : Bool) (mask : Nat)
        (type : snippet_type_t) (refl : spirvcross_refl_t),
      compiled ≠ "" → parse_reflection (glsl_precompile c vk type) vk = some refl →
      ∃ src, to_glsl c compiled v ges vk mask type = some src ∧ src.valid = true ∧
        src.refl.entry_point = refl.entry_point) ∧
    (∀ (c : compiler_t) (compiled : String) (mask : Nat)
        (type : snippet_type_t) (refl : spirvcross_refl_t),
      compiled ≠ "" → parse_reflection (hlsl5_precompile c type) false = some refl →
      ∃ src, to_hlsl5 c compiled mask type = some src ∧ src.valid = true ∧
        src.refl.entry_point = refl.entry_point) := by
  refine ⟨?_, ?_, ?_⟩
  · intro c compiled plat mask type refl hne hp
    refine ⟨{ valid := true, source_code := compiled,
              refl := { refl with entry_point := refl.entry_point ++ "0" } }, ?_, rfl, rfl, ?_⟩
    · simp only [to_msl, if_neg hne, hp]
    · intro hm
      simp [hm]
  · intro c compiled v ges vk mask type refl hne hp
    refine ⟨{ valid := true, source_code := compiled, refl := refl }, ?_, rfl, rfl⟩
    simp only [to_glsl, if_neg hne, hp]
  · intro c compiled mask type refl hne hp
    refine ⟨{ valid := true, source_code := compiled, refl := refl }, ?_, rfl, rfl⟩
    simp only [to_hlsl5, if_neg hne, hp]

/-- Concrete compiler state reporting entry point `main` for a vertex
shader. -/
def c8_cex : compiler_t :=
  { exec_model := .Vertex, entry_points := [(.Vertex, "main")] }

/-- The reflection record `parse_reflection` produces for `c8_cex`. -/
def c8_cex_refl : spirvcross_refl_t :=
  { stage := .VS, entry_point := "main" }

theorem c8_entry_point_renaming_witness :
    (∃ src, to_msl c8_cex "x" .macOS 0 .VS = some src ∧ src.valid = true ∧
      src.refl.entry_point = c8_cex_refl.entry_point ++ "0" ∧
      (c8_cex_refl.entry_point = "main" → src.refl.entry_point = "main0")) ∧
    (∃ src, to_glsl c8_cex "x" 330 false false 0 .VS = some src ∧ src.valid = true ∧
      src.refl.entry_point = c8_cex_refl.entry_point) ∧
    (∃ src, to_hlsl5 c8_cex "x" 0 .VS = some src ∧ src.valid = true ∧
      src.refl.entry_point = c8_cex_refl.entry_point) := by
  refine ⟨?_, ?_, ?_⟩
  · exact c8_entry_point_renaming.1 c8_cex "x" .macOS 0 .VS c8_cex_refl
      (by decide) (by decide)
  · exact c8_entry_point_renaming.2.1 c8_cex "x" 330 false false 0 .VS c8_cex_refl
      (by decide) (by decide)
  · exact c8_entry_point_renaming.2.2 c8_cex "x" 0 .VS c8_cex_refl
      (by decide) (by decide)

/-! ## C7 -/

/-- C7 (amended): for every string whose length is strictly below 65535 the
writer's precondition assertion (`str.size() < UINT16_MAX`, i.e. < 65535)
holds and it emits the length as a little-endian `u16` followed by exactly
that many bytes; already strings of length 65535 — not only 65536 or more —
violate the serializer's contract. -/
theorem c7_write_string_contract (s : String) (h : s.length < 65535) :
    write_string s = some (u16_bytes s.length ++ str_bytes s) ∧
    (str_bytes s).length = s.length ∧ (u16_bytes s.length).length = 2 := by
  refine ⟨by simp [write_string, h], ?_, rfl⟩
  have h2 : (str_bytes s).length = s.data.length := by simp [str_bytes]
  rw [h2]
  rfl

/-- A string of length 65535. -/
def c7_big : String := String.mk (List.replicate 65535 'a')

/-- C7 counterexample: `c7_big` has length 65535 < 65536 (it fits in 16
bits), yet the writer's precondition fails (`none`), refuting the claim that
only strings of length 65536 or more violate the contract. -/
theorem c7_assert_already_at_65535_cex :
    c7_big.length < 65536 ∧ write_string c7_big = none := by
  have hl : c7_big.length = 65535 := by
    show (List.replicate 65535 'a').length = 65535
    rw [List.length_replicate]
  exact ⟨by omega, by simp [write_string, hl]⟩

/-- Witness for the amended C7 on a short string. -/
theorem c7_write_string_contract_witness :
    ("ab" : String).length < 65535 ∧
    (write_string "ab" = some (u16_bytes ("ab" : String).length ++ str_bytes "ab") ∧
      (str_bytes "ab").length = ("ab" : String).length ∧
      (u16_bytes ("ab" : String).length).length = 2) := by
  exact ⟨by decide, c7_write_string_contract "ab" (by decide)⟩

/-! ## C10 -/

theorem store_attrs_isSome (rs : List stage_attr_t) :
    ∀ arr : List attr_t, (store_attrs arr rs).isSome ↔ ∀ r ∈ rs, r.location < arr.length := by
  induction rs with
  | nil => intro arr; simp [store_attrs]
  | cons r rest ih =>
    intro arr
    by_cases hr : r.location < arr.length
    · rw [store_attrs, if_pos hr]
      rw [ih (arr.set r.location (reflect_stage_attr r))]
      simp only [List.length_set]
      constructor
      · intro h2 x hx
        rcases List.mem_cons.mp hx with h | h
        · rw [h]; exact hr
        · exact h2 x h
      · intro h2 x hx
        exact h2 x (List.mem_cons_of_mem r hx)
    · rw [store_attrs, if_neg hr]
      simp only [Option.isSome_none, Bool.false_eq_true, false_iff]
      intro h2
      exact hr (h2 r (List.mem_cons_self r rest))

theorem store_attrs_getD (rs : List stage_attr_t) :
    ∀ (arr out : List attr_t) (j : Nat), store_attrs arr rs = some out → j < arr.length →
      out.getD j {} = (match rs.reverse.find? (fun r => r.location == j) with
                       | some r => reflect_stage_attr r
                       | none => arr.getD j {}) := by
  induction rs with
  | nil =>
    intro arr out j h hj
    simp only [store_attrs, Option.some.injEq] at h
    simp [← h]
  | cons r rest ih =>
    intro arr out j h hj
    rw [store_attrs] at h
    by_cases hr : r.location < arr.length
    · rw [if_pos hr] at h
      have hj2 : j < (arr.set r.location (reflect_stage_attr r)).length := by
        simpa using hj
      have := ih (arr.set r.location (reflect_stage_attr r)) out j h hj2
      rw [this]
      simp only [List.reverse_cons, List.find?_append]
      cases hfind : rest.reverse.find? (fun x => x.location == j) with
      | some x => simp [hfind]
      | none =>
        simp only [hfind, Option.none_orElse]
        by_cases heq : r.location = j
        · subst heq
          simp only [List.find?_cons, beq_self_eq_true, reduceIte]
          rw [getD_of_lt _ _ _ hj2, getD_of_lt _ _ _ hj]
          · simp [List.getElem_set]
        · have : (r.location == j) = false := by simp [heq]
          simp only [List.find?_cons, this]
          rw [getD_of_lt _ _ _ hj2, getD_of_lt _ _ _ hj]
          simp [List.getElem_set, heq]
    · rw [if_neg hr] at h
      simp at h

theorem parse_reflection_isSome (c : compiler_t) (vk : Bool) :
    (parse_reflection c vk).isSome ↔
      ((∀ r ∈ c.stage_inputs, r.location < attr_NUM) ∧
       (∀ r ∈ c.stage_outputs, r.location < attr_NUM)) := by
  unfold parse_reflection
  have hlen : (List.replicate attr_NUM ({} : attr_t)).length = attr_NUM := by simp
  cases h1 : store_attrs (List.replicate attr_NUM {}) c.stage_inputs with
  | none =>
    have := store_attrs_isSome c.stage_inputs (List.replicate attr_NUM {})
    rw [h1] at this
    simp only [Option.isSome_none, Bool.false_eq_true, false_iff] at this
    rw [hlen] at this
    simp only [Option.isSome_none, Bool.false_eq_true, false_iff]
    intro hc
    exact this hc.1
  | some ins =>
    cases h2 : store_attrs (List.replicate attr_NUM {}) c.stage_outputs with
    | none =>
      have := store_attrs_isSome c.stage_outputs (List.replicate attr_NUM {})
      rw [h2] at this
      simp only [Option.isSome_none, Bool.false_eq_true, false_iff] at this
      rw [hlen] at this
      simp only [Option.isSome_none, Bool.false_eq_true, false_iff]
      intro hc
      exact this hc.2
    | some outs =>
      simp only [Option.isSome_some, true_iff]
      constructor
      · have := store_attrs_isSome c.stage_inputs (List.replicate attr_NUM {})
        rw [h1] at this
        simp only [Option.isSome_some, true_iff] at this
        rw [hlen] at this
        exact this
      · have := store_attrs_isSome c.stage_outputs (List.replicate attr_NUM {})
        rw [h2] at this
        simp only [Option.isSome_some, true_iff] at this
        rw [hlen] at this
        exact this

/-- C10: the reflection extractor stores each stage-I/O attribute at the
index given by its location decoration with no bounds check: the store loop
succeeds exactly when every location is below the array capacity (so an
out-of-range location is an out-of-bounds write, and nothing else — in
particular not a duplicated location — is ever rejected); when it succeeds,
the slot holds the attribute of the **last** resource with that location,
silently overwriting earlier ones; `parse_reflection` as a whole succeeds
exactly under the same bounds precondition on its inputs and outputs, with
no detection of shared locations. -/
theorem c10_unchecked_slot_stores (c : compiler_t) (vk : Bool) (arr out : List attr_t)
    (rs : List stage_attr_t) (j : Nat) :
    ((store_attrs arr rs).isSome ↔ ∀ r ∈ rs, r.location < arr.length) ∧
    (store_attrs arr rs = some out → j < arr.length →
      out.getD j {} = (match rs.reverse.find? (fun r => r.location == j) with
                       | some r => reflect_stage_attr r
                       | none => arr.getD j {})) ∧
    ((parse_reflection c vk).isSome ↔
      ((∀ r ∈ c.stage_inputs, r.location < attr_NUM) ∧
       (∀ r ∈ c.stage_outputs, r.location < attr_NUM))) :=
  ⟨store_attrs_isSome rs arr, store_attrs_getD rs arr out j, parse_reflection_isSome c vk⟩

/-- Two stage inputs sharing location 0. -/
def c10_cex : compiler_t :=
  { exec_model := .Vertex,
    stage_inputs := [{ name := "first", location := 0 }, { name := "second", location := 0 }] }

/-- The stored attribute array for `c10_cex`. -/
def c10_out : List attr_t :=
  (store_attrs (List.replicate attr_NUM {}) c10_cex.stage_inputs).getD []

/-- Witness for C10: with two resources at location 0 the store succeeds
(the duplicate is not rejected) and slot 0 holds the later resource;
`parse_reflection` accepts the shader. -/
theorem c10_unchecked_slot_stores_witness :
    ((store_attrs (List.replicate attr_NUM {}) c10_cex.stage_inputs).isSome ↔
      ∀ r ∈ c10_cex.stage_inputs, r.location < (List.replicate attr_NUM ({} : attr_t)).length) ∧
    c10_out.getD 0 {} = reflect_stage_attr { name := "second", location := 0 } ∧
    (parse_reflection c10_cex false).isSome := by
  refine ⟨(c10_unchecked_slot_stores c10_cex false (List.replicate attr_NUM {}) []
    c10_cex.stage_inputs 0).1, ?_, ?_⟩
  · have h := (c10_unchecked_slot_stores c10_cex false (List.replicate attr_NUM {})
      c10_out c10_cex.stage_inputs 0).2.1 (by decide) (by decide)
    rw [h]
    decide
  · exact ((c10_unchecked_slot_stores c10_cex false [] [] [] 0).2.2).mpr ⟨by decide, by decide⟩

/-! ## C1: deduplication lemmas -/

theorem getD_append_left {α} (l1 l2 : List α) (d : α) (i : Nat) (h : i < l1.length) :
    (l1 ++ l2).getD i d = l1.getD i d := by
  rw [getD_of_lt _ _ _ (by simp; omega), getD_of_lt _ _ _ h]
  exact List.getElem_append_left h

theorem getD_concat_length {α} (l : List α) (x : α) (d : α) :
    (l ++ [x]).getD l.length d = x := by
  have h : l.length < (l ++ [x]).length := by simp
  rw [getD_of_lt _ _ _ h]
  simp

theorem getD_mem {α} (l : List α) (d : α) (i : Nat) (h : i < l.length) :
    l.getD i d ∈ l := by
  rw [getD_of_lt _ _ _ h]
  exact List.get_mem l i h

theorem find_ub_range (pool : List uniform_block_t) (name : String) :
    find_unique_uniform_block_by_name pool name = -1 ∨
    0 ≤ find_unique_uniform_block_by_name pool name := by
  induction pool with
  | nil => left; rfl
  | cons hd tl ih =>
    rw [find_unique_uniform_block_by_name]
    by_cases hh : hd.name = name
    · right; rw [if_pos hh]
    · rw [if_neg hh]
      by_cases hI : find_unique_uniform_block_by_name tl name ≥ 0
      · right; rw [if_pos hI]; omega
      · left; rw [if_neg hI]

theorem find_ub_neg_iff (pool : List uniform_block_t) (name : String) :
    find_unique_uniform_block_by_name pool name = -1 ↔ ∀ ub ∈ pool, ub.name ≠ name := by
  induction pool with
  | nil => simp [find_unique_uniform_block_by_name]
  | cons hd tl ih =>
    rw [find_unique_uniform_block_by_name]
    by_cases hh : hd.name = name
    · rw [if_pos hh]
      constructor
      · intro h
        exact absurd h (by decide)
      · intro h
        exact absurd hh (h hd (List.mem_cons_self hd tl))
    · rw [if_neg hh]
      by_cases hI : find_unique_uniform_block_by_name tl name ≥ 0
      · rw [if_pos hI]
        constructor
        · intro h; omega
        · intro h
          have : find_unique_uniform_block_by_name tl name = -1 :=
            (ih).mpr (fun ub hub => h ub (List.mem_cons_of_mem hd hub))
          omega
      · rw [if_neg hI]
        have htl : find_unique_uniform_block_by_name tl name = -1 := by
          rcases find_ub_range tl name with h | h
          · exact h
          · exact absurd h hI
        simp only [true_iff]
        intro ub hub
        rcases List.mem_cons.mp hub with h | h
        · rw [h]; exact hh
        · exact (ih.mp htl) ub h

theorem find_ub_spec (pool : List uniform_block_t) (name : String)
    (h : 0 ≤ find_unique_uniform_block_by_name pool name) :
    (find_unique_uniform_block_by_name pool name).toNat < pool.length ∧
    (pool.getD (find_unique_uniform_block_by_name pool name).toNat {}).name = name := by
  induction pool with
  | nil => simp [find_unique_uniform_block_by_name] at h
  | cons hd tl ih =>
    rw [find_unique_uniform_block_by_name] at h ⊢
    by_cases hh : hd.name = name
    · rw [if_pos hh]
      exact ⟨by simp, hh⟩
    · rw [if_neg hh] at h ⊢
      by_cases hI : find_unique_uniform_block_by_name tl name ≥ 0
      · rw [if_pos hI] at h ⊢
        obtain ⟨h1, h2⟩ := ih hI
        have ht : (find_unique_uniform_block_by_name tl name + 1).toNat
            = (find_unique_uniform_block_by_name tl name).toNat + 1 := by omega
        rw [ht]
        exact ⟨by simpa using h1, by simpa using h2⟩
      · rw [if_neg hI] at h
        omega

/-- Every pool entry records its own position as `unique_index`. -/
def pool_wf (pool : List uniform_block_t) : Prop :=
  ∀ i, i < pool.length → (pool.getD i {}).unique_index = (i : Int)

/-- Pool entries have pairwise distinct names. -/
def pool_names_unique (pool : List uniform_block_t) : Prop :=
  ∀ i1 i2, i1 < pool.length → i2 < pool.length →
    (pool.getD i1 {}).name = (pool.getD i2 {}).name → i1 = i2

theorem pool_wf_append (pool : List uniform_block_t) (ub : uniform_block_t)
    (h : pool_wf pool) (hu : ub.unique_index = (pool.length : Int)) :
    pool_wf (pool ++ [ub]) := by
  intro i hi
  simp only [List.length_append, List.length_singleton] at hi
  by_cases hlt : i < pool.length
  · rw [getD_append_left _ _ _ _ hlt]
    exact h i hlt
  · have : i = pool.length := by omega
    subst this
    rw [getD_concat_length]
    exact hu

theorem pool_names_unique_append (pool : List uniform_block_t) (ub : uniform_block_t)
    (h : pool_names_unique pool)
    (habs : ∀ i, i < pool.length → (pool.getD i {}).name ≠ ub.name) :
    pool_names_unique (pool ++ [ub]) := by
  intro i1 i2 h1 h2 hn
  simp only [List.length_append, List.length_singleton] at h1 h2
  by_cases hl1 : i1 < pool.length <;> by_cases hl2 : i2 < pool.length
  · rw [getD_append_left _ _ _ _ hl1, getD_append_left _ _ _ _ hl2] at hn
    exact h i1 i2 hl1 hl2 hn
  · have : i2 = pool.length := by omega
    subst this
    rw [getD_append_left _ _ _ _ hl1, getD_concat_length] at hn
    exact absurd hn (habs i1 hl1)
  · have : i1 = pool.length := by omega
    subst this
    rw [getD_concat_length, getD_append_left _ _ _ _ hl2] at hn
    exact absurd hn.symm (habs i2 hl2)
  · omega

/-- Success-case invariants of the inner uniform-block gather loop: the pool
only grows, keeps index-coherent `unique_index` values and distinct names,
the block list keeps its length, and every processed block is linked to the
pool entry carrying its name (same `unique_index`, structurally equal, all
other fields unchanged). -/
theorem gather_ubs_none (bp : String) (L : List uniform_block_t) :
    ∀ pool, (gather_ubs bp L pool).2.2 = none → pool_wf pool → pool_names_unique pool →
      (∃ new, (gather_ubs bp L pool).2.1 = pool ++ new) ∧
      pool_wf (gather_ubs bp L pool).2.1 ∧
      pool_names_unique (gather_ubs bp L pool).2.1 ∧
      (gather_ubs bp L pool).1.length = L.length ∧
      (∀ j, j < L.length →
        ∃ i, i < (gather_ubs bp L pool).2.1.length ∧
          ((gather_ubs bp L pool).2.1.getD i {}).name = (L.getD j {}).name ∧
          (gather_ubs bp L pool).1.getD j {}
            = { L.getD j {} with unique_index := (i : Int) } ∧
          (L.getD j {}).equals ((gather_ubs bp L pool).2.1.getD i {})) := by
  induction L with
  | nil =>
    intro pool _ hwf hnu
    refine ⟨⟨[], by simp [gather_ubs]⟩, ?_, ?_, by simp [gather_ubs], ?_⟩
    · simpa [gather_ubs] using hwf
    · simpa [gather_ubs] using hnu
    · intro j hj; simp at hj
  | cons ub rest ih =>
    intro pool hnone hwf hnu
    by_cases h0 : find_unique_uniform_block_by_name pool ub.name ≥ 0
    · by_cases heq : ub.equals
        (pool.getD (find_unique_uniform_block_by_name pool ub.name).toNat {})
      · have hg : gather_ubs bp (ub :: rest) pool
            = ({ ub with unique_index := find_unique_uniform_block_by_name pool ub.name }
                :: (gather_ubs bp rest pool).1,
               (gather_ubs bp rest pool).2.1, (gather_ubs bp rest pool).2.2) := by
          rw [gather_ubs, if_pos h0, if_pos heq]
        rw [hg] at hnone ⊢
        simp only at hnone
        obtain ⟨⟨new, hext⟩, hwf', hnu', hlen', hlink⟩ := ih pool hnone hwf hnu
        obtain ⟨hilt, hiname⟩ := find_ub_spec pool ub.name h0
        refine ⟨⟨new, hext⟩, hwf', hnu', by simpa using hlen', ?_⟩
        intro j hj
        cases j with
        | zero =>
          refine ⟨(find_unique_uniform_block_by_name pool ub.name).toNat, ?_, ?_, ?_, ?_⟩
          · rw [hext]; simp only [List.length_append]; omega
          · rw [hext, getD_append_left _ _ _ _ hilt]
            simpa using hiname
          · simp only [List.getD_cons_zero]
            have : ((find_unique_uniform_block_by_name pool ub.name).toNat : Int)
                = find_unique_uniform_block_by_name pool ub.name := by omega
            rw [this]
          · rw [hext, getD_append_left _ _ _ _ hilt]
            simpa using heq
        | succ j' =>
          have hj' : j' < rest.length := by simpa using hj
          obtain ⟨i, hi1, hi2, hi3, hi4⟩ := hlink j' hj'
          exact ⟨i, hi1, by simpa using hi2, by simpa using hi3, by simpa using hi4⟩
      · have hg : gather_ubs bp (ub :: rest) pool
            = (ub :: rest, pool, some (errmsg_t.error bp 0 (.conflicting_ub ub.name))) := by
          rw [gather_ubs, if_pos h0, if_neg heq]
        rw [hg] at hnone
        simp at hnone
    · have hneg : find_unique_uniform_block_by_name pool ub.name = -1 := by
        rcases find_ub_range pool ub.name with h | h
        · exact h
        · exact absurd h h0
      have habs : ∀ i, i < pool.length → (pool.getD i {}).name ≠ ub.name := by
        intro i hi
        exact (find_ub_neg_iff pool ub.name).mp hneg _ (getD_mem pool {} i hi)
      have hg : gather_ubs bp (ub :: rest) pool
          = ({ ub with unique_index := (pool.length : Int) }
              :: (gather_ubs bp rest
                  (pool ++ [{ ub with unique_index := (pool.length : Int) }])).1,
             (gather_ubs bp rest
                  (pool ++ [{ ub with unique_index := (pool.length : Int) }])).2.1,
             (gather_ubs bp rest
                  (pool ++ [{ ub with unique_index := (pool.length : Int) }])).2.2) := by
        rw [gather_ubs, if_neg h0]
      rw [hg] at hnone ⊢
      simp only at hnone
      have hwf2 : pool_wf (pool ++ [{ ub with unique_index := (pool.length : Int) }]) :=
        pool_wf_append pool _ hwf rfl
      have hnu2 : pool_names_unique
          (pool ++ [{ ub with unique_index := (pool.length : Int) }]) :=
        pool_names_unique_append pool _ hnu habs
      obtain ⟨⟨new2, hext⟩, hwf', hnu', hlen', hlink⟩ := ih _ hnone hwf2 hnu2
      have hext' : (gather_ubs bp rest
          (pool ++ [{ ub with unique_index := (pool.length : Int) }])).2.1
          = pool ++ ([{ ub with unique_index := (pool.length : Int) }] ++ new2) := by
        rw [hext, List.append_assoc]
      refine ⟨⟨_, hext'⟩, hwf', hnu', by simpa using hlen', ?_⟩
      intro j hj
      cases j with
      | zero =>
        refine ⟨pool.length, ?_, ?_, ?_, ?_⟩
        · rw [hext]; simp
        · rw [hext, getD_append_left _ _ _ _ (by simp)]
          rw [getD_concat_length]
          simp
        · simp only [List.getD_cons_zero]
        · rw [hext, getD_append_left _ _ _ _ (by simp)]
          rw [getD_concat_length]
          exact ⟨rfl, rfl⟩
      | succ j' =>
        have hj' : j' < rest.length := by simpa using hj
        obtain ⟨i, hi1, hi2, hi3, hi4⟩ := hlink j' hj'
        exact ⟨i, hi1, by simpa using hi2, by simpa using hi3, by simpa using hi4⟩

theorem ub_equals_trans {a b c : uniform_block_t}
    (h1 : a.equals b) (h2 : b.equals c) : a.equals c :=
  ⟨h1.1.trans h2.1, h1.2.trans h2.2⟩

theorem ub_equals_symm {a b : uniform_block_t} (h : a.equals b) : b.equals a :=
  ⟨h.1.symm, h.2.symm⟩

/-- Processing a concatenation whose first part succeeds equals processing
the parts in sequence, threading the pool. -/
theorem gather_ubs_append (bp : String) (L1 : List uniform_block_t) :
    ∀ pool, (gather_ubs bp L1 pool).2.2 = none → ∀ L2,
      gather_ubs bp (L1 ++ L2) pool
        = ((gather_ubs bp L1 pool).1 ++ (gather_ubs bp L2 (gather_ubs bp L1 pool).2.1).1,
           (gather_ubs bp L2 (gather_ubs bp L1 pool).2.1).2.1,
           (gather_ubs bp L2 (gather_ubs bp L1 pool).2.1).2.2) := by
  induction L1 with
  | nil =>
    intro pool _ L2
    simp [gather_ubs]
  | cons ub rest ih =>
    intro pool hnone L2
    by_cases h0 : find_unique_uniform_block_by_name pool ub.name ≥ 0
    · by_cases heq : ub.equals
        (pool.getD (find_unique_uniform_block_by_name pool ub.name).toNat {})
      · have hnone' : (gather_ubs bp rest pool).2.2 = none := by
          rw [gather_ubs, if_pos h0, if_pos heq] at hnone
          exact hnone
        rw [List.cons_append, gather_ubs, if_pos h0, if_pos heq,
            gather_ubs, if_pos h0, if_pos heq]
        rw [ih pool hnone' L2]
        simp
      · rw [gather_ubs, if_pos h0, if_neg heq] at hnone
        simp at hnone
    · have hnone' : (gather_ubs bp rest
          (pool ++ [{ ub with unique_index := (pool.length : Int) }])).2.2 = none := by
        rw [gather_ubs, if_neg h0] at hnone
        exact hnone
      rw [List.cons_append, gather_ubs, if_neg h0, gather_ubs, if_neg h0]
      rw [ih _ hnone' L2]
      simp

/-- The conflict step: a block whose name is pooled with a structurally
different entry stops the loop immediately with the conflict error, leaving
the remaining blocks untouched. -/
theorem gather_ubs_conflict_step (bp : String) (ub : uniform_block_t)
    (L2 pool : List uniform_block_t)
    (h0 : 0 ≤ find_unique_uniform_block_by_name pool ub.name)
    (hne : ¬ ub.equals
      (pool.getD (find_unique_uniform_block_by_name pool ub.name).toNat {})) :
    gather_ubs bp (ub :: L2) pool
      = (ub :: L2, pool, some (errmsg_t.error bp 0 (.conflicting_ub ub.name))) := by
  rw [gather_ubs, if_pos h0, if_neg hne]

/-- Success-case invariants of the source-level uniform-block gather: pool
extension, first-seen `unique_index` coherence, name uniqueness, and the
per-block link of every updated source block to its pool entry. -/
theorem gather_ubs_srcs_none (bp : String) (srcs : List spirvcross_source_t) :
    ∀ pool, (gather_ubs_srcs bp srcs pool).2.2 = none → pool_wf pool →
      pool_names_unique pool →
      (∃ new, (gather_ubs_srcs bp srcs pool).2.1 = pool ++ new) ∧
      pool_wf (gather_ubs_srcs bp srcs pool).2.1 ∧
      pool_names_unique (gather_ubs_srcs bp srcs pool).2.1 ∧
      (gather_ubs_srcs bp srcs pool).1.length = srcs.length ∧
      (∀ k, k < srcs.length →
        ((gather_ubs_srcs bp srcs pool).1.getD k {}).refl.uniform_blocks.length
          = (srcs.getD k {}).refl.uniform_blocks.length ∧
        ∀ j, j < (srcs.getD k {}).refl.uniform_blocks.length →
          ∃ i, i < (gather_ubs_srcs bp srcs pool).2.1.length ∧
            ((gather_ubs_srcs bp srcs pool).2.1.getD i {}).name
              = ((srcs.getD k {}).refl.uniform_blocks.getD j {}).name ∧
            ((gather_ubs_srcs bp srcs pool).1.getD k {}).refl.uniform_blocks.getD j {}
              = { (srcs.getD k {}).refl.uniform_blocks.getD j {}
                    with unique_index := (i : Int) } ∧
            ((srcs.getD k {}).refl.uniform_blocks.getD j {}).equals
              ((gather_ubs_srcs bp srcs pool).2.1.getD i {})) := by
  induction srcs with
  | nil =>
    intro pool _ hwf hnu
    refine ⟨⟨[], by simp [gather_ubs_srcs]⟩, ?_, ?_, by simp [gather_ubs_srcs], ?_⟩
    · simpa [gather_ubs_srcs] using hwf
    · simpa [gather_ubs_srcs] using hnu
    · intro k hk; simp at hk
  | cons src rest ih =>
    intro pool hnone hwf hnu
    cases hr : (gather_ubs bp src.refl.uniform_blocks pool).2.2 with
    | some err =>
      simp only [gather_ubs_srcs, hr] at hnone
      exact absurd hnone (by simp)
    | none =>
      have hexp : gather_ubs_srcs bp (src :: rest) pool
          = ({ src with refl := { src.refl with
                uniform_blocks := (gather_ubs bp src.refl.uniform_blocks pool).1 } }
              :: (gather_ubs_srcs bp rest
                    (gather_ubs bp src.refl.uniform_blocks pool).2.1).1,
             (gather_ubs_srcs bp rest
                    (gather_ubs bp src.refl.uniform_blocks pool).2.1).2.1,
             (gather_ubs_srcs bp rest
                    (gather_ubs bp src.refl.uniform_blocks pool).2.1).2.2) := by
        simp only [gather_ubs_srcs, hr]
      rw [hexp] at hnone ⊢
      simp only at hnone
      obtain ⟨⟨new1, hext1⟩, hwf1, hnu1, hlen1, hlink1⟩ :=
        gather_ubs_none bp src.refl.uniform_blocks pool hr hwf hnu
      obtain ⟨⟨new2, hext2⟩, hwf2, hnu2, hlen2, hlink2⟩ := ih _ hnone hwf1 hnu1
      refine ⟨⟨new1 ++ new2, by rw [hext2, hext1, List.append_assoc]⟩, hwf2, hnu2,
        by simpa using hlen2, ?_⟩
      intro k hk
      cases k with
      | zero =>
        simp only [List.getD_cons_zero]
        constructor
        · exact hlen1
        · intro j hj
          obtain ⟨i, hi1, hi2, hi3, hi4⟩ := hlink1 j hj
          refine ⟨i, ?_, ?_, hi3, ?_⟩
          · rw [hext2]; simp only [List.length_append]; omega
          · rw [hext2, getD_append_left _ _ _ _ hi1]; exact hi2
          · rw [hext2, getD_append_left _ _ _ _ hi1]; exact hi4
      | succ k' =>
        have hk' : k' < rest.length := by simpa using hk
        obtain ⟨ha, hb⟩ := hlink2 k' hk'
        exact ⟨by simpa using ha, by simpa using hb⟩

/-- A source-level gather failure is always a conflict error built by
`errmsg_t.error` with the conflicting resource's name. -/
theorem gather_ubs_srcs_err_shape (bp : String) (srcs : List spirvcross_source_t) :
    ∀ pool err, (gather_ubs_srcs bp srcs pool).2.2 = some err →
      ∃ name, err = errmsg_t.error bp 0 (.conflicting_ub name) := by
  have hblocks : ∀ (L pool : List uniform_block_t) (err : errmsg_t),
      (gather_ubs bp L pool).2.2 = some err →
      ∃ name, err = errmsg_t.error bp 0 (.conflicting_ub name) := by
    intro L
    induction L with
    | nil => intro pool err h; simp [gather_ubs] at h
    | cons ub rest ih =>
      intro pool err h
      by_cases h0 : find_unique_uniform_block_by_name pool ub.name ≥ 0
      · by_cases heq : ub.equals
          (pool.getD (find_unique_uniform_block_by_name pool ub.name).toNat {})
        · rw [gather_ubs, if_pos h0, if_pos heq] at h
          exact ih pool err h
        · rw [gather_ubs, if_pos h0, if_neg heq] at h
          simp only [Option.some.injEq] at h
          exact ⟨ub.name, h.symm⟩
      · rw [gather_ubs, if_neg h0] at h
        exact ih _ err h
  induction srcs with
  | nil => intro pool err h; simp [gather_ubs_srcs] at h
  | cons src rest ih =>
    intro pool err h
    cases hr : (gather_ubs bp src.refl.uniform_blocks pool).2.2 with
    | some e2 =>
      rw [gather_ubs_srcs] at h
      simp only [hr, Option.some.injEq] at h
      subst h
      exact hblocks _ _ _ hr
    | none =>
      rw [gather_ubs_srcs] at h
      simp only [hr] at h
      exact ih _ err h

/-! ## C1: image mirrors of the deduplication lemmas -/

theorem find_img_range (pool : List image_t) (name : String) :
    find_unique_image_by_name pool name = -1 ∨
    0 ≤ find_unique_image_by_name pool name := by
  induction pool with
  | nil => left; rfl
  | cons hd tl ih =>
    rw [find_unique_image_by_name]
    by_cases hh : hd.name = name
    · right; rw [if_pos hh]
    · rw [if_neg hh]
      by_cases hI : find_unique_image_by_name tl name ≥ 0
      · right; rw [if_pos hI]; omega
      · left; rw [if_neg hI]

theorem find_img_neg_iff (pool : List image_t) (name : String) :
    find_unique_image_by_name pool name = -1 ↔ ∀ ub ∈ pool, ub.name ≠ name := by
  induction pool with
  | nil => simp [find_unique_image_by_name]
  | cons hd tl ih =>
    rw [find_unique_image_by_name]
    by_cases hh : hd.name = name
    · rw [if_pos hh]
      constructor
      · intro h
        exact absurd h (by decide)
      · intro h
        exact absurd hh (h hd (List.mem_cons_self hd tl))
    · rw [if_neg hh]
      by_cases hI : find_unique_image_by_name tl name ≥ 0
      · rw [if_pos hI]
        constructor
        · intro h; omega
        · intro h
          have : find_unique_image_by_name tl name = -1 :=
            (ih).mpr (fun ub hub => h ub (List.mem_cons_of_mem hd hub))
          omega
      · rw [if_neg hI]
        have htl : find_unique_image_by_name tl name = -1 := by
          rcases find_img_range tl name with h | h
          · exact h
          · exact absurd h hI
        simp only [true_iff]
        intro ub hub
        rcases List.mem_cons.mp hub with h | h
        · rw [h]; exact hh
        · exact (ih.mp htl) ub h

theorem find_img_spec (pool : List image_t) (name : String)
    (h : 0 ≤ find_unique_image_by_name pool name) :
    (find_unique_image_by_name pool name).toNat < pool.length ∧
    (pool.getD (find_unique_image_by_name pool name).toNat {}).name = name := by
  induction pool with
  | nil => simp [find_unique_image_by_name] at h
  | cons hd tl ih =>
    rw [find_unique_image_by_name] at h ⊢
    by_cases hh : hd.name = name
    · rw [if_pos hh]
      exact ⟨by simp, hh⟩
    · rw [if_neg hh] at h ⊢
      by_cases hI : find_unique_image_by_name tl name ≥ 0
      · rw [if_pos hI] at h ⊢
        obtain ⟨h1, h2⟩ := ih hI
        have ht : (find_unique_image_by_name tl name + 1).toNat
            = (find_unique_image_by_name tl name).toNat + 1 := by omega
        rw [ht]
        exact ⟨by simpa using h1, by simpa using h2⟩
      · rw [if_neg hI] at h
        omega

/-- Every pool entry records its own position as `unique_index`. -/
def img_pool_wf (pool : List image_t) : Prop :=
  ∀ i, i < pool.length → (pool.getD i {}).unique_index = (i : Int)

/-- Pool entries have pairwise distinct names. -/
def img_pool_names_unique (pool : List image_t) : Prop :=
  ∀ i1 i2, i1 < pool.length → i2 < pool.length →
    (pool.getD i1 {}).name = (pool.getD i2 {}).name → i1 = i2

theorem img_img_pool_wf_append (pool : List image_t) (ub : image_t)
    (h : img_pool_wf pool) (hu : ub.unique_index = (pool.length : Int)) :
    img_pool_wf (pool ++ [ub]) := by
  intro i hi
  simp only [List.length_append, List.length_singleton] at hi
  by_cases hlt : i < pool.length
  · rw [getD_append_left _ _ _ _ hlt]
    exact h i hlt
  · have : i = pool.length := by omega
    subst this
    rw [getD_concat_length]
    exact hu

theorem img_img_pool_names_unique_append (pool : List image_t) (ub : image_t)
    (h : img_pool_names_unique pool)
    (habs : ∀ i, i < pool.length → (pool.getD i {}).name ≠ ub.name) :
    img_pool_names_unique (pool ++ [ub]) := by
  intro i1 i2 h1 h2 hn
  simp only [List.length_append, List.length_singleton] at h1 h2
  by_cases hl1 : i1 < pool.length <;> by_cases hl2 : i2 < pool.length
  · rw [getD_append_left _ _ _ _ hl1, getD_append_left _ _ _ _ hl2] at hn
    exact h i1 i2 hl1 hl2 hn
  · have : i2 = pool.length := by omega
    subst this
    rw [getD_append_left _ _ _ _ hl1, getD_concat_length] at hn
    exact absurd hn (habs i1 hl1)
  · have : i1 = pool.length := by omega
    subst this
    rw [getD_concat_length, getD_append_left _ _ _ _ hl2] at hn
    exact absurd hn.symm (habs i2 hl2)
  · omega

/-- Success-case invariants of the inner image gather loop: the pool
only grows, keeps index-coherent `unique_index` values and distinct names,
the block list keeps its length, and every processed block is linked to the
pool entry carrying its name (same `unique_index`, structurally equal, all
other fields unchanged). -/
theorem gather_imgs_none (bp : String) (L : List image_t) :
    ∀ pool, (gather_imgs bp L pool).2.2 = none → img_pool_wf pool → img_pool_names_unique pool →
      (∃ new, (gather_imgs bp L pool).2.1 = pool ++ new) ∧
      img_pool_wf (gather_imgs bp L pool).2.1 ∧
      img_pool_names_unique (gather_imgs bp L pool).2.1 ∧
      (gather_imgs bp L pool).1.length = L.length ∧
      (∀ j, j < L.length →
        ∃ i, i < (gather_imgs bp L pool).2.1.length ∧
          ((gather_imgs bp L pool).2.1.getD i {}).name = (L.getD j {}).name ∧
          (gather_imgs bp L pool).1.getD j {}
            = { L.getD j {} with unique_index := (i : Int) } ∧
          (L.getD j {}).equals ((gather_imgs bp L pool).2.1.getD i {})) := by
  induction L with
  | nil =>
    intro pool _ hwf hnu
    refine ⟨⟨[], by simp [gather_imgs]⟩, ?_, ?_, by simp [gather_imgs], ?_⟩
    · simpa [gather_imgs] using hwf
    · simpa [gather_imgs] using hnu
    · intro j hj; simp at hj
  | cons ub rest ih =>
    intro pool hnone hwf hnu
    by_cases h0 : find_unique_image_by_name pool ub.name ≥ 0
    · by_cases heq : ub.equals
        (pool.getD (find_unique_image_by_name pool ub.name).toNat {})
      · have hg : gather_imgs bp (ub :: rest) pool
            = ({ ub with unique_index := find_unique_image_by_name pool ub.name }
                :: (gather_imgs bp rest pool).1,
               (gather_imgs bp rest pool).2.1, (gather_imgs bp rest pool).2.2) := by
          rw [gather_imgs, if_pos h0, if_pos heq]
        rw [hg] at hnone ⊢
        simp only at hnone
        obtain ⟨⟨new, hext⟩, hwf', hnu', hlen', hlink⟩ := ih pool hnone hwf hnu
        obtain ⟨hilt, hiname⟩ := find_img_spec pool ub.name h0
        refine ⟨⟨new, hext⟩, hwf', hnu', by simpa using hlen', ?_⟩
        intro j hj
        cases j with
        | zero =>
          refine ⟨(find_unique_image_by_name pool ub.name).toNat, ?_, ?_, ?_, ?_⟩
          · rw [hext]; simp only [List.length_append]; omega
          · rw [hext, getD_append_left _ _ _ _ hilt]
            simpa using hiname
          · simp only [List.getD_cons_zero]
            have : ((find_unique_image_by_name pool ub.name).toNat : Int)
                = find_unique_image_by_name pool ub.name := by omega
            rw [this]
          · rw [hext, getD_append_left _ _ _ _ hilt]
            simpa using heq
        | succ j' =>
          have hj' : j' < rest.length := by simpa using hj
          obtain ⟨i, hi1, hi2, hi3, hi4⟩ := hlink j' hj'
          exact ⟨i, hi1, by simpa using hi2, by simpa using hi3, by simpa using hi4⟩
      · have hg : gather_imgs bp (ub :: rest) pool
            = (ub :: rest, pool, some (errmsg_t.error bp 0 (.conflicting_img ub.name))) := by
          rw [gather_imgs, if_pos h0, if_neg heq]
        rw [hg] at hnone
        simp at hnone
    · have hneg : find_unique_image_by_name pool ub.name = -1 := by
        rcases find_img_range pool ub.name with h | h
        · exact h
        · exact absurd h h0
      have habs : ∀ i, i < pool.length → (pool.getD i {}).name ≠ ub.name := by
        intro i hi
        exact (find_img_neg_iff pool ub.name).mp hneg _ (getD_mem pool {} i hi)
      have hg : gather_imgs bp (ub :: rest) pool
          = ({ ub with unique_index := (pool.length : Int) }
              :: (gather_imgs bp rest
                  (pool ++ [{ ub with unique_index := (pool.length : Int) }])).1,
             (gather_imgs bp rest
                  (pool ++ [{ ub with unique_index := (pool.length : Int) }])).2.1,
             (gather_imgs bp rest
                  (pool ++ [{ ub with unique_index := (pool.length : Int) }])).2.2) := by
        rw [gather_imgs, if_neg h0]
      rw [hg] at hnone ⊢
      simp only at hnone
      have hwf2 : img_pool_wf (pool ++ [{ ub with unique_index := (pool.length : Int) }]) :=
        img_img_pool_wf_append pool _ hwf rfl
      have hnu2 : img_pool_names_unique
          (pool ++ [{ ub with unique_index := (pool.length : Int) }]) :=
        img_img_pool_names_unique_append pool _ hnu habs
      obtain ⟨⟨new2, hext⟩, hwf', hnu', hlen', hlink⟩ := ih _ hnone hwf2 hnu2
      have hext' : (gather_imgs bp rest
          (pool ++ [{ ub with unique_index := (pool.length : Int) }])).2.1
          = pool ++ ([{ ub with unique_index := (pool.length : Int) }] ++ new2) := by
        rw [hext, List.append_assoc]
      refine ⟨⟨_, hext'⟩, hwf', hnu', by simpa using hlen', ?_⟩
      intro j hj
      cases j with
      | zero =>
        refine ⟨pool.length, ?_, ?_, ?_, ?_⟩
        · rw [hext]; simp
        · rw [hext, getD_append_left _ _ _ _ (by simp)]
          rw [getD_concat_length]
          simp
        · simp only [List.getD_cons_zero]
        · rw [hext, getD_append_left _ _ _ _ (by simp)]
          rw [getD_concat_length]
          exact ⟨rfl, rfl⟩
      | succ j' =>
        have hj' : j' < rest.length := by simpa using hj
        obtain ⟨i, hi1, hi2, hi3, hi4⟩ := hlink j' hj'
        exact ⟨i, hi1, by simpa using hi2, by simpa using hi3, by simpa using hi4⟩

theorem img_equals_trans {a b c : image_t}
    (h1 : a.equals b) (h2 : b.equals c) : a.equals c :=
  ⟨h1.1.trans h2.1, h1.2.trans h2.2⟩

theorem img_equals_symm {a b : image_t} (h : a.equals b) : b.equals a :=
  ⟨h.1.symm, h.2.symm⟩

/-- Processing a concatenation whose first part succeeds equals processing
the parts in sequence, threading the pool. -/
theorem gather_imgs_append (bp : String) (L1 : List image_t) :
    ∀ pool, (gather_imgs bp L1 pool).2.2 = none → ∀ L2,
      gather_imgs bp (L1 ++ L2) pool
        = ((gather_imgs bp L1 pool).1 ++ (gather_imgs bp L2 (gather_imgs bp L1 pool).2.1).1,
           (gather_imgs bp L2 (gather_imgs bp L1 pool).2.1).2.1,
           (gather_imgs bp L2 (gather_imgs bp L1 pool).2.1).2.2) := by
  induction L1 with
  | nil =>
    intro pool _ L2
    simp [gather_imgs]
  | cons ub rest ih =>
    intro pool hnone L2
    by_cases h0 : find_unique_image_by_name pool ub.name ≥ 0
    · by_cases heq : ub.equals
        (pool.getD (find_unique_image_by_name pool ub.name).toNat {})
      · have hnone' : (gather_imgs bp rest pool).2.2 = none := by
          rw [gather_imgs, if_pos h0, if_pos heq] at hnone
          exact hnone
        rw [List.cons_append, gather_imgs, if_pos h0, if_pos heq,
            gather_imgs, if_pos h0, if_pos heq]
        rw [ih pool hnone' L2]
        simp
      · rw [gather_imgs, if_pos h0, if_neg heq] at hnone
        simp at hnone
    · have hnone' : (gather_imgs bp rest
          (pool ++ [{ ub with unique_index := (pool.length : Int) }])).2.2 = none := by
        rw [gather_imgs, if_neg h0] at hnone
        exact hnone
      rw [List.cons_append, gather_imgs, if_neg h0, gather_imgs, if_neg h0]
      rw [ih _ hnone' L2]
      simp

/-- The conflict step: a block whose name is pooled with a structurally
different entry stops the loop immediately with the conflict error, leaving
the remaining blocks untouched. -/
theorem gather_imgs_conflict_step (bp : String) (ub : image_t)
    (L2 pool : List image_t)
    (h0 : 0 ≤ find_unique_image_by_name pool ub.name)
    (hne : ¬ ub.equals
      (pool.getD (find_unique_image_by_name pool ub.name).toNat {})) :
    gather_imgs bp (ub :: L2) pool
      = (ub :: L2, pool, some (errmsg_t.error bp 0 (.conflicting_img ub.name))) := by
  rw [gather_imgs, if_pos h0, if_neg hne]

/-- Success-case invariants of the source-level image gather: pool
extension, first-seen `unique_index` coherence, name uniqueness, and the
per-block link of every updated source block to its pool entry. -/
theorem gather_imgs_srcs_none (bp : String) (srcs : List spirvcross_source_t) :
    ∀ pool, (gather_imgs_srcs bp srcs pool).2.2 = none → img_pool_wf pool →
      img_pool_names_unique pool →
      (∃ new, (gather_imgs_srcs bp srcs pool).2.1 = pool ++ new) ∧
      img_pool_wf (gather_imgs_srcs bp srcs pool).2.1 ∧
      img_pool_names_unique (gather_imgs_srcs bp srcs pool).2.1 ∧
      (gather_imgs_srcs bp srcs pool).1.length = srcs.length ∧
      (∀ k, k < srcs.length →
        ((gather_imgs_srcs bp srcs pool).1.getD k {}).refl.images.length
          = (srcs.getD k {}).refl.images.length ∧
        ∀ j, j < (srcs.getD k {}).refl.images.length →
          ∃ i, i < (gather_imgs_srcs bp srcs pool).2.1.length ∧
            ((gather_imgs_srcs bp srcs pool).2.1.getD i {}).name
              = ((srcs.getD k {}).refl.images.getD j {}).name ∧
            ((gather_imgs_srcs bp srcs pool).1.getD k {}).refl.images.getD j {}
              = { (srcs.getD k {}).refl.images.getD j {}
                    with unique_index := (i : Int) } ∧
            ((srcs.getD k {}).refl.images.getD j {}).equals
              ((gather_imgs_srcs bp srcs pool).2.1.getD i {})) := by
  induction srcs with
  | nil =>
    intro pool _ hwf hnu
    refine ⟨⟨[], by simp [gather_imgs_srcs]⟩, ?_, ?_, by simp [gather_imgs_srcs], ?_⟩
    · simpa [gather_imgs_srcs] using hwf
    · simpa [gather_imgs_srcs] using hnu
    · intro k hk; simp at hk
  | cons src rest ih =>
    intro pool hnone hwf hnu
    cases hr : (gather_imgs bp src.refl.images pool).2.2 with
    | some err =>
      simp only [gather_imgs_srcs, hr] at hnone
      exact absurd hnone (by simp)
    | none =>
      have hexp : gather_imgs_srcs bp (src :: rest) pool
          = ({ src with refl := { src.refl with
                images := (gather_imgs bp src.refl.images pool).1 } }
              :: (gather_imgs_srcs bp rest
                    (gather_imgs bp src.refl.images pool).2.1).1,
             (gather_imgs_srcs bp rest
                    (gather_imgs bp src.refl.images pool).2.1).2.1,
             (gather_imgs_srcs bp rest
                    (gather_imgs bp src.refl.images pool).2.1).2.2) := by
        simp only [gather_imgs_srcs, hr]
      rw [hexp] at hnone ⊢
      simp only at hnone
      obtain ⟨⟨new1, hext1⟩, hwf1, hnu1, hlen1, hlink1⟩ :=
        gather_imgs_none bp src.refl.images pool hr hwf hnu
      obtain ⟨⟨new2, hext2⟩, hwf2, hnu2, hlen2, hlink2⟩ := ih _ hnone hwf1 hnu1
      refine ⟨⟨new1 ++ new2, by rw [hext2, hext1, List.append_assoc]⟩, hwf2, hnu2,
        by simpa using hlen2, ?_⟩
      intro k hk
      cases k with
      | zero =>
        simp only [List.getD_cons_zero]
        constructor
        · exact hlen1
        · intro j hj
          obtain ⟨i, hi1, hi2, hi3, hi4⟩ := hlink1 j hj
          refine ⟨i, ?_, ?_, hi3, ?_⟩
          · rw [hext2]; simp only [List.length_append]; omega
          · rw [hext2, getD_append_left _ _ _ _ hi1]; exact hi2
          · rw [hext2, getD_append_left _ _ _ _ hi1]; exact hi4
      | succ k' =>
        have hk' : k' < rest.length := by simpa using hk
        obtain ⟨ha, hb⟩ := hlink2 k' hk'
        exact ⟨by simpa using ha, by simpa using hb⟩

/-- A source-level gather failure is always a conflict error built by
`errmsg_t.error` with the conflicting resource's name. -/
theorem gather_imgs_srcs_err_shape (bp : String) (srcs : List spirvcross_source_t) :
    ∀ pool err, (gather_imgs_srcs bp srcs pool).2.2 = some err →
      ∃ name, err = errmsg_t.error bp 0 (.conflicting_img name) := by
  have hblocks : ∀ (L pool : List image_t) (err : errmsg_t),
      (gather_imgs bp L pool).2.2 = some err →
      ∃ name, err = errmsg_t.error bp 0 (.conflicting_img name) := by
    intro L
    induction L with
    | nil => intro pool err h; simp [gather_imgs] at h
    | cons ub rest ih =>
      intro pool err h
      by_cases h0 : find_unique_image_by_name pool ub.name ≥ 0
      · by_cases heq : ub.equals
          (pool.getD (find_unique_image_by_name pool ub.name).toNat {})
        · rw [gather_imgs, if_pos h0, if_pos heq] at h
          exact ih pool err h
        · rw [gather_imgs, if_pos h0, if_neg heq] at h
          simp only [Option.some.injEq] at h
          exact ⟨ub.name, h.symm⟩
      · rw [gather_imgs, if_neg h0] at h
        exact ih _ err h
  induction srcs with
  | nil => intro pool err h; simp [gather_imgs_srcs] at h
  | cons src rest ih =>
    intro pool err h
    cases hr : (gather_imgs bp src.refl.images pool).2.2 with
    | some e2 =>
      rw [gather_imgs_srcs] at h
      simp only [hr, Option.some.injEq] at h
      subst h
      exact hblocks _ _ _ hr
    | none =>
      rw [gather_imgs_srcs] at h
      simp only [hr] at h
      exact ih _ err h

/-! ## C1: the claim theorem -/

/-- C1: within one target pass (both pools starting empty), for every
uniform block and every image of every source: the final pool assigns
`unique_index` values in first-seen order starting at 0 (entry i of the pool
carries index i); every gathered resource is linked to the unique pool entry
carrying its name — it receives that entry's `unique_index` and is
structurally equal to it, all other fields unchanged — so two resources
sharing a name get the same `unique_index` and are structurally equal; and a
resource whose name is pooled with a structurally different entry makes the
gather loop stop immediately (the remaining list is left untouched,
whatever it is) with a ConflictingResourceDeclaration error naming that
resource; every gather failure has that error shape. -/
theorem c1_dedup_pools (bp : String) :
    (∀ srcs : List spirvcross_source_t, (gather_ubs_srcs bp srcs []).2.2 = none →
      (∀ i, i < (gather_ubs_srcs bp srcs []).2.1.length →
        ((gather_ubs_srcs bp srcs []).2.1.getD i {}).unique_index = (i : Int)) ∧
      (∀ k j, k < srcs.length → j < (srcs.getD k {}).refl.uniform_blocks.length →
        ∃ i, i < (gather_ubs_srcs bp srcs []).2.1.length ∧
          ((gather_ubs_srcs bp srcs []).2.1.getD i {}).name
            = ((srcs.getD k {}).refl.uniform_blocks.getD j {}).name ∧
          ((gather_ubs_srcs bp srcs []).1.getD k {}).refl.uniform_blocks.getD j {}
            = { (srcs.getD k {}).refl.uniform_blocks.getD j {}
                  with unique_index := (i : Int) } ∧
          ((srcs.getD k {}).refl.uniform_blocks.getD j {}).equals
            ((gather_ubs_srcs bp srcs []).2.1.getD i {})) ∧
      (∀ k1 j1 k2 j2, k1 < srcs.length → j1 < (srcs.getD k1 {}).refl.uniform_blocks.length →
        k2 < srcs.length → j2 < (srcs.getD k2 {}).refl.uniform_blocks.length →
        ((srcs.getD k1 {}).refl.uniform_blocks.getD j1 {}).name
          = ((srcs.getD k2 {}).refl.uniform_blocks.getD j2 {}).name →
        (((gather_ubs_srcs bp srcs []).1.getD k1 {}).refl.uniform_blocks.getD j1 {}).unique_index
          = (((gather_ubs_srcs bp srcs []).1.getD k2 {}).refl.uniform_blocks.getD j2 {}).unique_index ∧
        ((srcs.getD k1 {}).refl.uniform_blocks.getD j1 {}).equals
          ((srcs.getD k2 {}).refl.uniform_blocks.getD j2 {}))) ∧
    (∀ (L1 : List uniform_block_t) (ub : uniform_block_t) (L2 : List uniform_block_t),
      (gather_ubs bp L1 []).2.2 = none →
      0 ≤ find_unique_uniform_block_by_name (gather_ubs bp L1 []).2.1 ub.name →
      ¬ ub.equals ((gather_ubs bp L1 []).2.1.getD
          (find_unique_uniform_block_by_name (gather_ubs bp L1 []).2.1 ub.name).toNat {}) →
      gather_ubs bp (L1 ++ ub :: L2) []
        = ((gather_ubs bp L1 []).1 ++ ub :: L2, (gather_ubs bp L1 []).2.1,
           some (errmsg_t.error bp 0 (.conflicting_ub ub.name)))) ∧
    (∀ srcs pool err, (gather_ubs_srcs bp srcs pool).2.2 = some err →
      ∃ name, err = errmsg_t.error bp 0 (.conflicting_ub name)) ∧
    (∀ srcs : List spirvcross_source_t, (gather_imgs_srcs bp srcs []).2.2 = none →
      (∀ i, i < (gather_imgs_srcs bp srcs []).2.1.length →
        ((gather_imgs_srcs bp srcs []).2.1.getD i {}).unique_index = (i : Int)) ∧
      (∀ k j, k < srcs.length → j < (srcs.getD k {}).refl.images.length →
        ∃ i, i < (gather_imgs_srcs bp srcs []).2.1.length ∧
          ((gather_imgs_srcs bp srcs []).2.1.getD i {}).name
            = ((srcs.getD k {}).refl.images.getD j {}).name ∧
          ((gather_imgs_srcs bp srcs []).1.getD k {}).refl.images.getD j {}
            = { (srcs.getD k {}).refl.images.getD j {}
                  with unique_index := (i : Int) } ∧
          ((srcs.getD k {}).refl.images.getD j {}).equals
            ((gather_imgs_srcs bp srcs []).2.1.getD i {})) ∧
      (∀ k1 j1 k2 j2, k1 < srcs.length → j1 < (srcs.getD k1 {}).refl.images.length →
        k2 < srcs.length → j2 < (srcs.getD k2 {}).refl.images.length →
        ((srcs.getD k1 {}).refl.images.getD j1 {}).name
          = ((srcs.getD k2 {}).refl.images.getD j2 {}).name →
        (((gather_imgs_srcs bp srcs []).1.getD k1 {}).refl.images.getD j1 {}).unique_index
          = (((gather_imgs_srcs bp srcs []).1.getD k2 {}).refl.images.getD j2 {}).unique_index ∧
        ((srcs.getD k1 {}).refl.images.getD j1 {}).equals
          ((srcs.getD k2 {}).refl.images.getD j2 {}))) ∧
    (∀ (L1 : List image_t) (img : image_t) (L2 : List image_t),
      (gather_imgs bp L1 []).2.2 = none →
      0 ≤ find_unique_image_by_name (gather_imgs bp L1 []).2.1 img.name →
      ¬ img.equals ((gather_imgs bp L1 []).2.1.getD
          (find_unique_image_by_name (gather_imgs bp L1 []).2.1 img.name).toNat {}) →
      gather_imgs bp (L1 ++ img :: L2) []
        = ((gather_imgs bp L1 []).1 ++ img :: L2, (gather_imgs bp L1 []).2.1,
           some (errmsg_t.error bp 0 (.conflicting_img img.name)))) ∧
    (∀ srcs pool err, (gather_imgs_srcs bp srcs pool).2.2 = some err →
      ∃ name, err = errmsg_t.error bp 0 (.conflicting_img name)) := by
  have hwf0 : pool_wf [] := by intro i hi; simp at hi
  have hnu0 : pool_names_unique [] := by intro i1 i2 h1 h2 _; simp at h1
  have hiwf0 : img_pool_wf [] := by intro i hi; simp at hi
  have hinu0 : img_pool_names_unique [] := by intro i1 i2 h1 h2 _; simp at h1
  refine ⟨?_, ?_, gather_ubs_srcs_err_shape bp, ?_, ?_, gather_imgs_srcs_err_shape bp⟩
  · intro srcs hnone
    obtain ⟨hext, hwf, hnu, hlen, hlink⟩ := gather_ubs_srcs_none bp srcs [] hnone hwf0 hnu0
    refine ⟨hwf, fun k j hk hj => ((hlink k hk).2 j hj), ?_⟩
    intro k1 j1 k2 j2 hk1 hj1 hk2 hj2 hname
    obtain ⟨i1, hi1, hn1, ho1, he1⟩ := (hlink k1 hk1).2 j1 hj1
    obtain ⟨i2, hi2, hn2, ho2, he2⟩ := (hlink k2 hk2).2 j2 hj2
    have hieq : i1 = i2 := hnu i1 i2 hi1 hi2 (by rw [hn1, hn2, hname])
    subst hieq
    constructor
    · rw [ho1, ho2]
    · exact ub_equals_trans he1 (ub_equals_symm he2)
  · intro L1 ub L2 hnone h0 hne
    rw [gather_ubs_append bp L1 [] hnone (ub :: L2),
        gather_ubs_conflict_step bp ub L2 _ h0 hne]
  · intro srcs hnone
    obtain ⟨hext, hwf, hnu, hlen, hlink⟩ := gather_imgs_srcs_none bp srcs [] hnone hiwf0 hinu0
    refine ⟨hwf, fun k j hk hj => ((hlink k hk).2 j hj), ?_⟩
    intro k1 j1 k2 j2 hk1 hj1 hk2 hj2 hname
    obtain ⟨i1, hi1, hn1, ho1, he1⟩ := (hlink k1 hk1).2 j1 hj1
    obtain ⟨i2, hi2, hn2, ho2, he2⟩ := (hlink k2 hk2).2 j2 hj2
    have hieq : i1 = i2 := hnu i1 i2 hi1 hi2 (by rw [hn1, hn2, hname])
    subst hieq
    constructor
    · rw [ho1, ho2]
    · exact img_equals_trans he1 (img_equals_symm he2)
  · intro L1 img L2 hnone h0 hne
    rw [gather_imgs_append bp L1 [] hnone (img :: L2),
        gather_imgs_conflict_step bp img L2 _ h0 hne]

/-- Concrete pass data for the C1 witness: two sources declaring the same
uniform block `params` (structurally equal, different binding slots) and the
same image `tex`; plus a structurally different `params` for the conflict
case. -/
def c1_ub1 : uniform_block_t :=
  { slot := 0, size := 16, name := "params",
    uniforms := [{ name := "mvp", type := .MAT4, array_count := 0, offset := 0 }] }

def c1_ub2 : uniform_block_t := { c1_ub1 with slot := 4 }

def c1_ub_bad : uniform_block_t := { slot := 0, size := 32, name := "params", uniforms := [] }

def c1_img1 : image_t := { slot := 0, name := "tex", type := .IMAGE_2D, base_type := .FLOAT }

def c1_img_bad : image_t := { slot := 0, name := "tex", type := .IMAGE_3D, base_type := .FLOAT }

def c1_srcs : List spirvcross_source_t :=
  [{ snippet_index := 0, valid := true,
     refl := { stage := .VS, uniform_blocks := [c1_ub1], images := [c1_img1] } },
   { snippet_index := 1, valid := true,
     refl := { stage := .FS, uniform_blocks := [c1_ub2], images := [c1_img1] } }]

/-- Witness for C1: on the concrete pass the two same-named blocks (and
images) end up with equal `unique_index`, and a structurally different
same-named block (image) stops the gather with the conflict error. -/
theorem c1_dedup_pools_witness :
    ((((gather_ubs_srcs "p" c1_srcs []).1.getD 0 {}).refl.uniform_blocks.getD 0 {}).unique_index
      = (((gather_ubs_srcs "p" c1_srcs []).1.getD 1 {}).refl.uniform_blocks.getD 0 {}).unique_index) ∧
    (gather_ubs "p" ([c1_ub1] ++ c1_ub_bad :: []) []
      = ((gather_ubs "p" [c1_ub1] []).1 ++ c1_ub_bad :: [], (gather_ubs "p" [c1_ub1] []).2.1,
         some (errmsg_t.error "p" 0 (.conflicting_ub c1_ub_bad.name)))) ∧
    ((((gather_imgs_srcs "p" c1_srcs []).1.getD 0 {}).refl.images.getD 0 {}).unique_index
      = (((gather_imgs_srcs "p" c1_srcs []).1.getD 1 {}).refl.images.getD 0 {}).unique_index) ∧
    (gather_imgs "p" ([c1_img1] ++ c1_img_bad :: []) []
      = ((gather_imgs "p" [c1_img1] []).1 ++ c1_img_bad :: [], (gather_imgs "p" [c1_img1] []).2.1,
         some (errmsg_t.error "p" 0 (.conflicting_img c1_img_bad.name)))) := by
  refine ⟨?_, ?_, ?_, ?_⟩
  · exact (((c1_dedup_pools "p").1 c1_srcs (by decide)).2.2 0 0 1 0
      (by decide) (by decide) (by decide) (by decide) (by decide)).1
  · exact (c1_dedup_pools "p").2.1 [c1_ub1] c1_ub_bad [] (by decide) (by decide) (by decide)
  · exact (((c1_dedup_pools "p").2.2.2.1 c1_srcs (by decide)).2.2 0 0 1 0
      (by decide) (by decide) (by decide) (by decide) (by decide)).1
  · exact (c1_dedup_pools "p").2.2.2.2.1 [c1_img1] c1_img_bad []
      (by decide) (by decide) (by decide)

/-! ## C2: interface validation -/

/-- The pair of translated sources `validate_linking` works on for one
program: vertex/fragment snippet lookup followed by source lookup; `none`
when any of these preconditions fails. -/
def prog_sources (inp : input_t) (spv : spirvcross_t) (prog : program_t) :
    Option (spirvcross_source_t × spirvcross_source_t) :=
  match map_at inp.vs_map prog.vs_name, map_at inp.fs_map prog.fs_name with
  | some vs_snippet_index, some fs_snippet_index =>
    let vs_src_index := spv.find_source_by_snippet_index vs_snippet_index
    let fs_src_index := spv.find_source_by_snippet_index fs_snippet_index
    if vs_src_index ≥ 0 ∧ fs_src_index ≥ 0 then
      some (spv.sources.getD vs_src_index.toNat {}, spv.sources.getD fs_src_index.toNat {})
    else none
  | _, _ => none

/-- The slot loop passes (returns the invalid empty error) exactly when the
vertex output and fragment input agree on every checked slot. -/
theorem link_check_valid_iff (inp : input_t) (prog : program_t)
    (vs fs : spirvcross_source_t) :
    ∀ count i, (link_check inp prog vs fs i count).valid = false ↔
      ∀ k, k < count →
        (vs.refl.outputs.getD (i + k) {}).equals (fs.refl.inputs.getD (i + k) {}) := by
  intro count
  induction count with
  | zero =>
    intro i
    constructor
    · intro _ k hk; omega
    · intro _; rfl
  | succ c ih =>
    intro i
    rw [link_check]
    by_cases heq : (vs.refl.outputs.getD i {}).equals (fs.refl.inputs.getD i {})
    · rw [if_pos heq]
      rw [ih (i + 1)]
      constructor
      · intro h k hk
        cases k with
        | zero => simpa using heq
        | succ k' =>
          have := h k' (by omega)
          have harith : i + 1 + k' = i + (k' + 1) := by omega
          rw [harith] at this
          exact this
      · intro h k hk
        have := h (k + 1) (by omega)
        have harith : i + (k + 1) = i + 1 + k := by omega
        rw [harith] at this
        exact this
    · rw [if_neg heq]
      simp only [input_t.error]
      constructor
      · intro h; exact absurd h (by simp)
      · intro h
        have := h 0 (by omega)
        simp only [Nat.add_zero] at this
        exact absurd this heq

/-- The slot loop returns the mismatch error of the first failing slot,
naming both shaders, the slot index and both attribute names. -/
theorem link_check_first_mismatch (inp : input_t) (prog : program_t)
    (vs fs : spirvcross_source_t) :
    ∀ j count i, j < count →
      (∀ k, k < j → (vs.refl.outputs.getD (i + k) {}).equals (fs.refl.inputs.getD (i + k) {})) →
      ¬ (vs.refl.outputs.getD (i + j) {}).equals (fs.refl.inputs.getD (i + j) {}) →
      link_check inp prog vs fs i count
        = inp.error prog.line_index
            (.link_mismatch prog.vs_name prog.fs_name (i + j)
              (vs.refl.outputs.getD (i + j) {}).name
              (fs.refl.inputs.getD (i + j) {}).name) := by
  intro j
  induction j with
  | zero =>
    intro count i hj hpre hne
    cases count with
    | zero => omega
    | succ c =>
      rw [link_check]
      simp only [Nat.add_zero] at hne
      rw [if_neg hne]
      simp
  | succ j' ih =>
    intro count i hj hpre hne
    cases count with
    | zero => omega
    | succ c =>
      rw [link_check]
      have h0 : (vs.refl.outputs.getD i {}).equals (fs.refl.inputs.getD i {}) := by
        have := hpre 0 (by omega)
        simpa using this
      rw [if_pos h0]
      have harith : i + 1 + j' = i + (j' + 1) := by omega
      have hpre' : ∀ k, k < j' →
          (vs.refl.outputs.getD (i + 1 + k) {}).equals (fs.refl.inputs.getD (i + 1 + k) {}) := by
        intro k hk
        have := hpre (k + 1) (by omega)
        have ha : i + (k + 1) = i + 1 + k := by omega
        rw [ha] at this
        exact this
      have hne' : ¬ (vs.refl.outputs.getD (i + 1 + j') {}).equals
          (fs.refl.inputs.getD (i + 1 + j') {}) := by
        rw [harith]; exact hne
      rw [ih c (i + 1) (by omega) hpre' hne']
      rw [harith]

/-- One step of the program loop of `validate_linking` when the lookups
succeed. -/
theorem validate_go_cons (inp : input_t) (spv : spirvcross_t) (prog : program_t)
    (rest : List program_t) (vs fs : spirvcross_source_t)
    (h : prog_sources inp spv prog = some (vs, fs)) :
    validate_linking.go inp spv (prog :: rest)
      = (if (link_check inp prog vs fs 0 attr_NUM).valid
         then some (link_check inp prog vs fs 0 attr_NUM)
         else validate_linking.go inp spv rest) := by
  unfold prog_sources at h
  cases hv : map_at inp.vs_map prog.vs_name with
  | none => rw [hv] at h; simp at h
  | some vsn =>
    cases hf : map_at inp.fs_map prog.fs_name with
    | none => rw [hv, hf] at h; simp at h
    | some fsn =>
      rw [hv, hf] at h
      simp only at h
      by_cases hc : spv.find_source_by_snippet_index vsn ≥ 0 ∧
          spv.find_source_by_snippet_index fsn ≥ 0
      · rw [if_pos hc] at h
        simp only [Option.some.injEq, Prod.mk.injEq] at h
        rw [validate_linking.go]
        simp only [hv, hf]
        rw [if_pos hc, h.1, h.2]
      · rw [if_neg hc] at h
        simp at h

/-- Success characterization of the program loop. -/
theorem validate_go_iff (inp : input_t) (spv : spirvcross_t) :
    ∀ (progs : List program_t) (e : errmsg_t), validate_linking.go inp spv progs = some e →
      (e.valid = false ↔ ∀ prog ∈ progs, ∃ vs fs,
        prog_sources inp spv prog = some (vs, fs) ∧
        ∀ i, i < attr_NUM →
          (vs.refl.outputs.getD i {}).equals (fs.refl.inputs.getD i {})) := by
  intro progs
  induction progs with
  | nil =>
    intro e h
    rw [validate_linking.go] at h
    simp only [Option.some.injEq] at h
    subst h
    simp
  | cons prog rest ih =>
    intro e h
    rw [validate_linking.go] at h
    cases hv : map_at inp.vs_map prog.vs_name with
    | none => rw [hv] at h; simp at h
    | some vsn =>
      cases hf : map_at inp.fs_map prog.fs_name with
      | none => rw [hv, hf] at h; simp at h
      | some fsn =>
        rw [hv, hf] at h
        simp only at h
        by_cases hc : spv.find_source_by_snippet_index vsn ≥ 0 ∧
            spv.find_source_by_snippet_index fsn ≥ 0
        · rw [if_pos hc] at h
          have hps : prog_sources inp spv prog
              = some (spv.sources.getD (spv.find_source_by_snippet_index vsn).toNat {},
                      spv.sources.getD (spv.find_source_by_snippet_index fsn).toNat {}) := by
            unfold prog_sources
            rw [hv, hf]
            simp only
            rw [if_pos hc]
          set vs := spv.sources.getD (spv.find_source_by_snippet_index vsn).toNat {} with hvs
          set fs := spv.sources.getD (spv.find_source_by_snippet_index fsn).toNat {} with hfs
          by_cases hval : (link_check inp prog vs fs 0 attr_NUM).valid
          · rw [if_pos hval] at h
            simp only [Option.some.injEq] at h
            subst h
            constructor
            · intro hfalse
              exact absurd hval (by simp [hfalse])
            · intro hall
              obtain ⟨vs', fs', hps', hall'⟩ := hall prog (List.mem_cons_self prog rest)
              rw [hps] at hps'
              simp only [Option.some.injEq, Prod.mk.injEq] at hps'
              have hlc : (link_check inp prog vs fs 0 attr_NUM).valid = false := by
                rw [link_check_valid_iff]
                intro k hk
                have := hall' k hk
                rw [← hps'.1, ← hps'.2] at this
                simpa using this
              exact absurd hval (by simp [hlc])
          · rw [if_neg hval] at h
            have hlc : (link_check inp prog vs fs 0 attr_NUM).valid = false := by
              cases hb : (link_check inp prog vs fs 0 attr_NUM).valid
              · rfl
              · exact absurd hb hval
            have hpass : ∀ i, i < attr_NUM →
                (vs.refl.outputs.getD i {}).equals (fs.refl.inputs.getD i {}) := by
              have := (link_check_valid_iff inp prog vs fs attr_NUM 0).mp hlc
              intro i hi
              have h2 := this i hi
              simpa using h2
            rw [ih e h]
            constructor
            · intro hall prog' hmem
              rcases List.mem_cons.mp hmem with hp | hp
              · subst hp
                exact ⟨vs, fs, hps, hpass⟩
              · exact hall prog' hp
            · intro hall prog' hmem
              exact hall prog' (List.mem_cons_of_mem prog hmem)
        · rw [if_neg hc] at h
          simp at h

/-- C2: for every declared program pair, validation compares the vertex
record's outputs with the fragment record's inputs at every slot of the
fixed-size attribute array: the pass is clean exactly when every program's
every slot is attribute-equal (unused sentinel slots being trivially equal);
and if the programs before `prog` are clean, `prog`'s slots before `i`
match, and slot `i` mismatches, the validator returns exactly the
InterfaceMismatch error naming both shader identifiers, slot `i` and both
attribute names — independent of every later program and slot. -/
theorem c2_validate_linking (inp : input_t) (spv : spirvcross_t) :
    (∀ e, validate_linking inp spv = some e →
      (e.valid = false ↔ ∀ prog ∈ inp.programs, ∃ vs fs,
        prog_sources inp spv prog = some (vs, fs) ∧
        ∀ i, i < attr_NUM →
          (vs.refl.outputs.getD i {}).equals (fs.refl.inputs.getD i {}))) ∧
    (∀ (P1 : List program_t) (prog : program_t) (P2 : List program_t)
        (vs fs : spirvcross_source_t) (i : Nat),
      inp.programs = P1 ++ prog :: P2 →
      (∀ p ∈ P1, ∃ vs1 fs1, prog_sources inp spv p = some (vs1, fs1) ∧
        ∀ k, k < attr_NUM →
          (vs1.refl.outputs.getD k {}).equals (fs1.refl.inputs.getD k {})) →
      prog_sources inp spv prog = some (vs, fs) →
      i < attr_NUM →
      (∀ k, k < i → (vs.refl.outputs.getD k {}).equals (fs.refl.inputs.getD k {})) →
      ¬ (vs.refl.outputs.getD i {}).equals (fs.refl.inputs.getD i {}) →
      validate_linking inp spv
        = some (inp.error prog.line_index
            (.link_mismatch prog.vs_name prog.fs_name i
              (vs.refl.outputs.getD i {}).name (fs.refl.inputs.getD i {}).name))) := by
  constructor
  · intro e h
    exact validate_go_iff inp spv inp.programs e h
  · intro P1 prog P2 vs fs i hprogs hpass hps hi hpre hne
    have hgo : ∀ P1' : List program_t,
        (∀ p ∈ P1', ∃ vs1 fs1, prog_sources inp spv p = some (vs1, fs1) ∧
          ∀ k, k < attr_NUM →
            (vs1.refl.outputs.getD k {}).equals (fs1.refl.inputs.getD k {})) →
        validate_linking.go inp spv (P1' ++ prog :: P2)
          = some (inp.error prog.line_index
              (.link_mismatch prog.vs_name prog.fs_name i
                (vs.refl.outputs.getD i {}).name (fs.refl.inputs.getD i {}).name)) := by
      intro P1'
      induction P1' with
      | nil =>
        intro _
        have hlc : link_check inp prog vs fs 0 attr_NUM
            = inp.error prog.line_index
                (.link_mismatch prog.vs_name prog.fs_name i
                  (vs.refl.outputs.getD i {}).name (fs.refl.inputs.getD i {}).name) := by
          have := link_check_first_mismatch inp prog vs fs i attr_NUM 0 hi
            (by intro k hk; simpa using hpre k hk)
            (by simpa using hne)
          simpa using this
        rw [List.nil_append, validate_go_cons inp spv prog P2 vs fs hps, hlc]
        simp [input_t.error]
      | cons p P1'' ih =>
        intro hp
        obtain ⟨vs1, fs1, hps1, hall1⟩ := hp p (List.mem_cons_self p P1'')
        rw [List.cons_append, validate_go_cons inp spv p _ vs1 fs1 hps1]
        have hlc1 : (link_check inp p vs1 fs1 0 attr_NUM).valid = false := by
          rw [link_check_valid_iff]
          intro k hk
          simpa using hall1 k hk
        rw [hlc1]
        simp only [Bool.false_eq_true, if_false]
        exact ih (fun q hq => hp q (List.mem_cons_of_mem p hq))
    show validate_linking.go inp spv inp.programs = _
    rw [hprogs]
    exact hgo P1 hpass

/-- Concrete linking data for the C2 witness: the vertex shader writes
`color` at slot 0; the matching fragment shader reads `color` at slot 0,
the mismatching one reads `uv`. -/
def c2_vs_src : spirvcross_source_t :=
  { snippet_index := 0, valid := true,
    refl := { stage := .VS,
              outputs := (List.replicate attr_NUM {}).set 0
                { slot := 0, name := "color", sem_name := "TEXCOORD", sem_index := 0 } } }

def c2_fs_ok : spirvcross_source_t :=
  { snippet_index := 1, valid := true,
    refl := { stage := .FS,
              inputs := (List.replicate attr_NUM {}).set 0
                { slot := 0, name := "color", sem_name := "TEXCOORD", sem_index := 0 } } }

def c2_fs_bad : spirvcross_source_t :=
  { snippet_index := 1, valid := true,
    refl := { stage := .FS,
              inputs := (List.replicate attr_NUM {}).set 0
                { slot := 0, name := "uv", sem_name := "TEXCOORD", sem_index := 0 } } }

def c2_prog : program_t := { name := "prog", vs_name := "vsA", fs_name := "fsA", line_index := 7 }

def c2_inp : input_t :=
  { base_path := "p", programs := [c2_prog], vs_map := [("vsA", 0)], fs_map := [("fsA", 1)] }

def c2_spv_ok : spirvcross_t := { sources := [c2_vs_src, c2_fs_ok] }

def c2_spv_bad : spirvcross_t := { sources := [c2_vs_src, c2_fs_bad] }

/-- Witness for C2: the matching pair validates cleanly, and the
mismatching pair produces exactly the InterfaceMismatch error for slot 0
naming `vsA`, `fsA`, `color` and `uv`. -/
theorem c2_validate_linking_witness :
    (({} : errmsg_t).valid = false ↔ ∀ prog ∈ c2_inp.programs, ∃ vs fs,
      prog_sources c2_inp c2_spv_ok prog = some (vs, fs) ∧
      ∀ i, i < attr_NUM →
        (vs.refl.outputs.getD i {}).equals (fs.refl.inputs.getD i {})) ∧
    validate_linking c2_inp c2_spv_bad
      = some (c2_inp.error c2_prog.line_index
          (.link_mismatch c2_prog.vs_name c2_prog.fs_name 0
            (c2_vs_src.refl.outputs.getD 0 {}).name
            (c2_fs_bad.refl.inputs.getD 0 {}).name)) := by
  constructor
  · exact (c2_validate_linking c2_inp c2_spv_ok).1 {} (by decide)
  · exact (c2_validate_linking c2_inp c2_spv_bad).2 [] c2_prog [] c2_vs_src c2_fs_bad 0
      rfl (by simp) (by decide) (by decide)
      (by intro k hk; exact absurd hk (by omega)) (by decide)

/-! ## C3: the translation pass -/

/-- The source-level uniform-block gather keeps the source count and every
source's `valid` flag and `snippet_index` (it only rewrites reflection
uniform-block lists). -/
theorem gather_ubs_srcs_preserves (bp : String) (srcs : List spirvcross_source_t) :
    ∀ pool, (gather_ubs_srcs bp srcs pool).1.length = srcs.length ∧
      ∀ k, k < srcs.length →
        ((gather_ubs_srcs bp srcs pool).1.getD k {}).valid = (srcs.getD k {}).valid ∧
        ((gather_ubs_srcs bp srcs pool).1.getD k {}).snippet_index
          = (srcs.getD k {}).snippet_index := by
  induction srcs with
  | nil => intro pool; exact ⟨by simp [gather_ubs_srcs], fun k hk => by simp at hk⟩
  | cons src rest ih =>
    intro pool
    cases hr : (gather_ubs bp src.refl.uniform_blocks pool).2.2 with
    | some err =>
      have hexp : (gather_ubs_srcs bp (src :: rest) pool).1
          = { src with refl := { src.refl with
                uniform_blocks := (gather_ubs bp src.refl.uniform_blocks pool).1 } } :: rest := by
        simp only [gather_ubs_srcs, hr]
      rw [hexp]
      refine ⟨by simp, ?_⟩
      intro k hk
      cases k with
      | zero => exact ⟨rfl, rfl⟩
      | succ k' => exact ⟨rfl, rfl⟩
    | none =>
      have hexp : (gather_ubs_srcs bp (src :: rest) pool).1
          = { src with refl := { src.refl with
                uniform_blocks := (gather_ubs bp src.refl.uniform_blocks pool).1 } }
              :: (gather_ubs_srcs bp rest
                  (gather_ubs bp src.refl.uniform_blocks pool).2.1).1 := by
        simp only [gather_ubs_srcs, hr]
      rw [hexp]
      obtain ⟨hlen, hfields⟩ := ih (gather_ubs bp src.refl.uniform_blocks pool).2.1
      refine ⟨by simp [hlen], ?_⟩
      intro k hk
      cases k with
      | zero => exact ⟨rfl, rfl⟩
      | succ k' =>
        have hk' : k' < rest.length := by simpa using hk
        obtain ⟨h1, h2⟩ := hfields k' hk'
        exact ⟨by simpa using h1, by simpa using h2⟩

/-- Image mirror of `gather_ubs_srcs_preserves`. -/
theorem gather_imgs_srcs_preserves (bp : String) (srcs : List spirvcross_source_t) :
    ∀ pool, (gather_imgs_srcs bp srcs pool).1.length = srcs.length ∧
      ∀ k, k < srcs.length →
        ((gather_imgs_srcs bp srcs pool).1.getD k {}).valid = (srcs.getD k {}).valid ∧
        ((gather_imgs_srcs bp srcs pool).1.getD k {}).snippet_index
          = (srcs.getD k {}).snippet_index := by
  induction srcs with
  | nil => intro pool; exact ⟨by simp [gather_imgs_srcs], fun k hk => by simp at hk⟩
  | cons src rest ih =>
    intro pool
    cases hr : (gather_imgs bp src.refl.images pool).2.2 with
    | some err =>
      have hexp : (gather_imgs_srcs bp (src :: rest) pool).1
          = { src with refl := { src.refl with
                images := (gather_imgs bp src.refl.images pool).1 } } :: rest := by
        simp only [gather_imgs_srcs, hr]
      rw [hexp]
      refine ⟨by simp, ?_⟩
      intro k hk
      cases k with
      | zero => exact ⟨rfl, rfl⟩
      | succ k' => exact ⟨rfl, rfl⟩
    | none =>
      have hexp : (gather_imgs_srcs bp (src :: rest) pool).1
          = { src with refl := { src.refl with
                images := (gather_imgs bp src.refl.images pool).1 } }
              :: (gather_imgs_srcs bp rest
                  (gather_imgs bp src.refl.images pool).2.1).1 := by
        simp only [gather_imgs_srcs, hr]
      rw [hexp]
      obtain ⟨hlen, hfields⟩ := ih (gather_imgs bp src.refl.images pool).2.1
      refine ⟨by simp [hlen], ?_⟩
      intro k hk
      cases k with
      | zero => exact ⟨rfl, rfl⟩
      | succ k' =>
        have hk' : k' < rest.length := by simpa using hk
        obtain ⟨h1, h2⟩ := hfields k' hk'
        exact ⟨by simpa using h1, by simpa using h2⟩

/-- A successful uniform-block gather keeps the error slot and the sources'
identity fields. -/
theorem gather_unique_ub_true (inp : input_t) (spv spv' : spirvcross_t)
    (h : gather_unique_uniform_blocks inp spv = (spv', true)) :
    spv'.error = spv.error ∧ spv'.sources.length = spv.sources.length ∧
    ∀ k, k < spv.sources.length →
      (spv'.sources.getD k {}).valid = (spv.sources.getD k {}).valid ∧
      (spv'.sources.getD k {}).snippet_index = (spv.sources.getD k {}).snippet_index := by
  cases hr : (gather_ubs_srcs inp.base_path spv.sources spv.unique_uniform_blocks).2.2 with
  | some err =>
    simp only [gather_unique_uniform_blocks, hr, Prod.mk.injEq] at h
    exact absurd h.2 (by simp)
  | none =>
    simp only [gather_unique_uniform_blocks, hr, Prod.mk.injEq] at h
    obtain ⟨hsp, _⟩ := h
    subst hsp
    obtain ⟨hlen, hfields⟩ :=
      gather_ubs_srcs_preserves inp.base_path spv.sources spv.unique_uniform_blocks
    exact ⟨rfl, hlen, hfields⟩

/-- A failed uniform-block gather sets a valid conflict error and keeps the
sources' identity fields. -/
theorem gather_unique_ub_false (inp : input_t) (spv spv' : spirvcross_t)
    (h : gather_unique_uniform_blocks inp spv = (spv', false)) :
    spv'.error.valid = true := by
  cases hr : (gather_ubs_srcs inp.base_path spv.sources spv.unique_uniform_blocks).2.2 with
  | some err =>
    simp only [gather_unique_uniform_blocks, hr, Prod.mk.injEq] at h
    obtain ⟨hsp, _⟩ := h
    subst hsp
    obtain ⟨name, hshape⟩ :=
      gather_ubs_srcs_err_shape inp.base_path spv.sources spv.unique_uniform_blocks err hr
    simp [hshape, errmsg_t.error]
  | none =>
    simp only [gather_unique_uniform_blocks, hr, Prod.mk.injEq] at h
    exact absurd h.2 (by simp)

/-- Image mirror of `gather_unique_ub_true`. -/
theorem gather_unique_img_true (inp : input_t) (spv spv' : spirvcross_t)
    (h : gather_unique_images inp spv = (spv', true)) :
    spv'.error = spv.error ∧ spv'.sources.length = spv.sources.length ∧
    ∀ k, k < spv.sources.length →
      (spv'.sources.getD k {}).valid = (spv.sources.getD k {}).valid ∧
      (spv'.sources.getD k {}).snippet_index = (spv.sources.getD k {}).snippet_index := by
  cases hr : (gather_imgs_srcs inp.base_path spv.sources spv.unique_images).2.2 with
  | some err =>
    simp only [gather_unique_images, hr, Prod.mk.injEq] at h
    exact absurd h.2 (by simp)
  | none =>
    simp only [gather_unique_images, hr, Prod.mk.injEq] at h
    obtain ⟨hsp, _⟩ := h
    subst hsp
    obtain ⟨hlen, hfields⟩ :=
      gather_imgs_srcs_preserves inp.base_path spv.sources spv.unique_images
    exact ⟨rfl, hlen, hfields⟩

/-- Image mirror of `gather_unique_ub_false`. -/
theorem gather_unique_img_false (inp : input_t) (spv spv' : spirvcross_t)
    (h : gather_unique_images inp spv = (spv', false)) :
    spv'.error.valid = true := by
  cases hr : (gather_imgs_srcs inp.base_path spv.sources spv.unique_images).2.2 with
  | some err =>
    simp only [gather_unique_images, hr, Prod.mk.injEq] at h
    obtain ⟨hsp, _⟩ := h
    subst hsp
    obtain ⟨name, hshape⟩ :=
      gather_imgs_srcs_err_shape inp.base_path spv.sources spv.unique_images err hr
    simp [hshape, errmsg_t.error]
  | none =>
    simp only [gather_unique_images, hr, Prod.mk.injEq] at h
    exact absurd h.2 (by simp)

/-- A stopping step always carries a valid (set) error record. -/
theorem translate_step_stop (mkc : spirv_blob_t → compiler_t) (out : spirv_blob_t → String)
    (inp : input_t) (slang : slang_t) (blob : spirv_blob_t) (spv stop : spirvcross_t)
    (h : translate_step mkc out inp slang blob spv = some (.inl stop)) :
    stop.error.valid = true := by
  simp only [translate_step] at h
  by_cases htype : (inp.snippets.getD blob.snippet_index {}).type = .VS ∨
      (inp.snippets.getD blob.snippet_index {}).type = .FS
  · rw [if_pos htype] at h
    cases hcc : cross_compile mkc out slang
        ((inp.snippets.getD blob.snippet_index {}).options slang)
        (inp.snippets.getD blob.snippet_index {}).type blob with
    | none => simp only [hcc] at h; exact absurd h (by simp)
    | some src =>
      simp only [hcc] at h
      by_cases hsv : src.valid
      · rw [if_pos hsv] at h
        cases hg1 : gather_unique_uniform_blocks inp
            { spv with sources := spv.sources
                ++ [{ src with snippet_index := blob.snippet_index }] } with
        | mk g1spv g1b =>
          rw [hg1] at h
          cases g1b with
          | false =>
            simp only [Bool.false_eq_true, if_false, Option.some.injEq, Sum.inl.injEq] at h
            subst h
            exact gather_unique_ub_false inp _ _ hg1
          | true =>
            simp only [if_true] at h
            cases hg2 : gather_unique_images inp g1spv with
            | mk g2spv g2b =>
              rw [hg2] at h
              cases g2b with
              | false =>
                simp only [Bool.false_eq_true, if_false, Option.some.injEq, Sum.inl.injEq] at h
                subst h
                exact gather_unique_img_false inp _ _ hg2
              | true =>
                simp only [if_true, Option.some.injEq, reduceCtorEq] at h
      · rw [if_neg hsv] at h
        simp only [Option.some.injEq, Sum.inl.injEq] at h
        subst h
        simp [input_t.error]
  · rw [if_neg htype] at h
    exact absurd h (by simp)

/-- A continuing step keeps the error slot and the existing sources'
identity fields, and appends exactly one valid source tagged with the blob's
snippet index. -/
theorem translate_step_cont (mkc : spirv_blob_t → compiler_t) (out : spirv_blob_t → String)
    (inp : input_t) (slang : slang_t) (blob : spirv_blob_t) (spv next : spirvcross_t)
    (h : translate_step mkc out inp slang blob spv = some (.inr next)) :
    next.error = spv.error ∧
    next.sources.length = spv.sources.length + 1 ∧
    (∀ k, k < spv.sources.length →
      (next.sources.getD k {}).valid = (spv.sources.getD k {}).valid ∧
      (next.sources.getD k {}).snippet_index = (spv.sources.getD k {}).snippet_index) ∧
    (next.sources.getD spv.sources.length {}).valid = true ∧
    (next.sources.getD spv.sources.length {}).snippet_index = blob.snippet_index := by
  simp only [translate_step] at h
  by_cases htype : (inp.snippets.getD blob.snippet_index {}).type = .VS ∨
      (inp.snippets.getD blob.snippet_index {}).type = .FS
  · rw [if_pos htype] at h
    cases hcc : cross_compile mkc out slang
        ((inp.snippets.getD blob.snippet_index {}).options slang)
        (inp.snippets.getD blob.snippet_index {}).type blob with
    | none => simp only [hcc] at h; exact absurd h (by simp)
    | some src =>
      simp only [hcc] at h
      by_cases hsv : src.valid
      · rw [if_pos hsv] at h
        cases hg1 : gather_unique_uniform_blocks inp
            { spv with sources := spv.sources
                ++ [{ src with snippet_index := blob.snippet_index }] } with
        | mk g1spv g1b =>
          rw [hg1] at h
          cases g1b with
          | false =>
            simp only [Bool.false_eq_true, if_false, Option.some.injEq, reduceCtorEq] at h
          | true =>
            simp only [if_true] at h
            cases hg2 : gather_unique_images inp g1spv with
            | mk g2spv g2b =>
              rw [hg2] at h
              cases g2b with
              | false =>
                simp only [Bool.false_eq_true, if_false, Option.some.injEq, reduceCtorEq] at h
              | true =>
                simp only [if_true, Option.some.injEq, Sum.inr.injEq] at h
                subst h
                obtain ⟨herr1, hlen1, hf1⟩ := gather_unique_ub_true inp _ _ hg1
                obtain ⟨herr2, hlen2, hf2⟩ := gather_unique_img_true inp _ _ hg2
                have hsl1 : g1spv.sources.length = spv.sources.length + 1 := by
                  simpa using hlen1
                refine ⟨by rw [herr2, herr1], by rw [hlen2, hsl1], ?_, ?_, ?_⟩
                · intro k hk
                  obtain ⟨hb1, hb2⟩ := hf2 k (by omega)
                  obtain ⟨hc1, hc2⟩ := hf1 k (by simp; omega)
                  rw [hb1, hc1, hb2, hc2]
                  constructor
                  · simp only
                    rw [getD_append_left _ _ _ _ hk]
                  · simp only
                    rw [getD_append_left _ _ _ _ hk]
                · obtain ⟨hb1, _⟩ := hf2 spv.sources.length (by omega)
                  obtain ⟨hc1, _⟩ := hf1 spv.sources.length (by simp)
                  rw [hb1, hc1]
                  simp only
                  rw [getD_concat_length]
                  exact hsv
                · obtain ⟨_, hb2⟩ := hf2 spv.sources.length (by omega)
                  obtain ⟨_, hc2⟩ := hf1 spv.sources.length (by simp)
                  rw [hb2, hc2]
                  simp only
                  rw [getD_concat_length]
      · rw [if_neg hsv] at h
        simp only [Option.some.injEq, reduceCtorEq] at h
  · rw [if_neg htype] at h
    exact absurd h (by simp)

/-- Success invariants of the blob loop: an error-free result keeps the
initial error slot, appends exactly one valid source per blob (in order,
tagged with the blob's snippet index) and keeps the pre-existing sources'
identity fields. -/
theorem translate_loop_ok (mkc : spirv_blob_t → compiler_t) (out : spirv_blob_t → String)
    (inp : input_t) (slang : slang_t) :
    ∀ (blobs : List spirv_blob_t) (spv0 spv : spirvcross_t),
      translate_loop mkc out inp slang blobs spv0 = some spv → spv.error.valid = false →
      spv.error = spv0.error ∧
      spv.sources.length = spv0.sources.length + blobs.length ∧
      (∀ k, k < spv0.sources.length →
        (spv.sources.getD k {}).valid = (spv0.sources.getD k {}).valid ∧
        (spv.sources.getD k {}).snippet_index = (spv0.sources.getD k {}).snippet_index) ∧
      (∀ i, i < blobs.length →
        (spv.sources.getD (spv0.sources.length + i) {}).valid = true ∧
        (spv.sources.getD (spv0.sources.length + i) {}).snippet_index
          = (blobs.getD i {}).snippet_index) := by
  intro blobs
  induction blobs with
  | nil =>
    intro spv0 spv h _
    rw [translate_loop] at h
    simp only [Option.some.injEq] at h
    subst h
    refine ⟨rfl, by simp, fun k hk => ⟨rfl, rfl⟩, fun i hi => by simp at hi⟩
  | cons blob rest ih =>
    intro spv0 spv h hv
    rw [translate_loop] at h
    cases hstep : translate_step mkc out inp slang blob spv0 with
    | none => rw [hstep] at h; exact absurd h (by simp)
    | some s =>
      rw [hstep] at h
      cases s with
      | inl stop =>
        simp only [Option.some.injEq] at h
        subst h
        have hst := translate_step_stop mkc out inp slang blob spv0 _ hstep
        simp [hst] at hv
      | inr next =>
        simp only at h
        obtain ⟨herr, hlen, hold, hnew⟩ := ih next spv h hv
        obtain ⟨serr, slen, sold, sval, ssnip⟩ :=
          translate_step_cont mkc out inp slang blob spv0 next hstep
        refine ⟨by rw [herr, serr], by rw [hlen, slen]; simp; omega, ?_, ?_⟩
        · intro k hk
          obtain ⟨ha1, ha2⟩ := hold k (by omega)
          obtain ⟨hb1, hb2⟩ := sold k hk
          exact ⟨by rw [ha1, hb1], by rw [ha2, hb2]⟩
        · intro i hi
          cases i with
          | zero =>
            obtain ⟨ha1, ha2⟩ := hold spv0.sources.length (by omega)
            simp only [Nat.add_zero]
            rw [ha1, ha2, sval, ssnip]
            exact ⟨rfl, rfl⟩
          | succ i' =>
            have hi' : i' < rest.length := by simpa using hi
            obtain ⟨ha1, ha2⟩ := hnew i' hi'
            have harith : spv0.sources.length + (i' + 1) = next.sources.length + i' := by
              omega
            rw [harith, ha1, ha2]
            exact ⟨rfl, rfl⟩

/-- Fail-fast stability of the blob loop: once a step has set the error, the
result is unchanged by any blobs after the failing one. -/
theorem translate_loop_stable (mkc : spirv_blob_t → compiler_t) (out : spirv_blob_t → String)
    (inp : input_t) (slang : slang_t) :
    ∀ (blobs : List spirv_blob_t) (spv0 spv : spirvcross_t),
      spv0.error.valid = false →
      translate_loop mkc out inp slang blobs spv0 = some spv → spv.error.valid = true →
      ∀ rest2, translate_loop mkc out inp slang (blobs ++ rest2) spv0 = some spv := by
  intro blobs
  induction blobs with
  | nil =>
    intro spv0 spv h0 h hv rest2
    rw [translate_loop] at h
    simp only [Option.some.injEq] at h
    subst h
    rw [h0] at hv
    exact absurd hv (by simp)
  | cons blob rest ih =>
    intro spv0 spv h0 h hv rest2
    rw [translate_loop] at h
    rw [List.cons_append, translate_loop]
    cases hstep : translate_step mkc out inp slang blob spv0 with
    | none => rw [hstep] at h; exact absurd h (by simp)
    | some s =>
      rw [hstep] at h
      cases s with
      | inl stop => exact h
      | inr next =>
        have hnerr : next.error.valid = false := by
          obtain ⟨serr, _⟩ := translate_step_cont mkc out inp slang blob spv0 next hstep
          rw [serr]
          exact h0
        exact ih next spv hnerr h hv rest2

/-- C3: for any compiler and compile-output oracles, a target pass either
fully succeeds — the result carries an unset error and exactly one valid
translated source per input blob, in order, tagged with its snippet index —
or fails fast: once a translation failure or a gather conflict stops the
blob loop, its result (already carrying the single error record) is
unchanged by any blobs after the failing one, and the whole pass returns
exactly that result with no interface validation attempted. -/
theorem c3_translate_fail_fast (mkc : spirv_blob_t → compiler_t)
    (out : spirv_blob_t → String) (inp : input_t) (slang : slang_t) :
    (∀ (blobs : List spirv_blob_t) (spv : spirvcross_t),
      spirvcross_translate mkc out inp ⟨blobs⟩ slang = some spv →
      spv.error.valid = false →
      spv.sources.length = blobs.length ∧
      ∀ i, i < blobs.length →
        (spv.sources.getD i {}).valid = true ∧
        (spv.sources.getD i {}).snippet_index = (blobs.getD i {}).snippet_index) ∧
    (∀ (blobs : List spirv_blob_t) (spv0 spv : spirvcross_t),
      spv0.error.valid = false →
      translate_loop mkc out inp slang blobs spv0 = some spv → spv.error.valid = true →
      ∀ rest, translate_loop mkc out inp slang (blobs ++ rest) spv0 = some spv) ∧
    (∀ (blobs : List spirv_blob_t) (spv : spirvcross_t),
      translate_loop mkc out inp slang blobs {} = some spv → spv.error.valid = true →
      ∀ rest, spirvcross_translate mkc out inp ⟨blobs ++ rest⟩ slang = some spv) := by
  refine ⟨?_, translate_loop_stable mkc out inp slang, ?_⟩
  · intro blobs spv h hv
    unfold spirvcross_translate at h
    cases hl : translate_loop mkc out inp slang blobs {} with
    | none => simp only [hl] at h; exact absurd h (by simp)
    | some spvL =>
      simp only [hl] at h
      by_cases hev : spvL.error.valid
      · rw [if_pos hev] at h
        simp only [Option.some.injEq] at h
        subst h
        exact absurd hev (by simp [hv])
      · rw [if_neg hev] at h
        cases hvl : validate_linking inp spvL with
        | none => simp only [hvl] at h; exact absurd h (by simp)
        | some err =>
          simp only [hvl] at h
          by_cases hev2 : err.valid
          · rw [if_pos hev2] at h
            simp only [Option.some.injEq] at h
            subst h
            exact absurd hev2 (by simp [hv] at hv ⊢; exact hv)
          · rw [if_neg hev2] at h
            simp only [Option.some.injEq] at h
            subst h
            obtain ⟨_, hlen, _, hnew⟩ := translate_loop_ok mkc out inp slang blobs {} spvL hl hv
            refine ⟨by simpa using hlen, ?_⟩
            intro i hi
            have := hnew i hi
            simpa using this
  · intro blobs spv h hv rest
    have hstable := translate_loop_stable mkc out inp slang blobs {} spv rfl h hv rest
    unfold spirvcross_translate
    simp only [hstable]
    rw [if_pos hv]

/-- Concrete pass data for the C3 witness: one vertex snippet; a compile
oracle that succeeds (`"x"`) and one that fails (empty output). -/
def c3_mkc : spirv_blob_t → compiler_t := fun _ => c8_cex

def c3_out : spirv_blob_t → String := fun _ => "x"

def c3_out_fail : spirv_blob_t → String := fun _ => ""

def c3_inp : input_t :=
  { base_path := "p", snippets := [{ type := .VS, lines := [3], options := fun _ => 0 }] }

def c3_blob : spirv_blob_t := { snippet_index := 0 }

def c3_spv : spirvcross_t :=
  (spirvcross_translate c3_mkc c3_out c3_inp ⟨[c3_blob]⟩ .GLSL330).getD {}

def c3_spv_fail : spirvcross_t :=
  (translate_loop c3_mkc c3_out_fail c3_inp .GLSL330 [c3_blob] {}).getD {}

/-- Witness for C3: the successful pass yields one valid source per blob
with an unset error; with the failing oracle, appending another blob after
the failing one leaves the pass result (a single error record, no source)
unchanged. -/
theorem c3_translate_fail_fast_witness :
    (c3_spv.sources.length = [c3_blob].length ∧
      ∀ i, i < [c3_blob].length →
        (c3_spv.sources.getD i {}).valid = true ∧
        (c3_spv.sources.getD i {}).snippet_index = ([c3_blob].getD i {}).snippet_index) ∧
    spirvcross_translate c3_mkc c3_out_fail c3_inp ⟨[c3_blob] ++ [c3_blob]⟩ .GLSL330
      = some c3_spv_fail := by
  constructor
  · exact (c3_translate_fail_fast c3_mkc c3_out c3_inp .GLSL330).1 [c3_blob] c3_spv
      (by decide) (by decide)
  · exact (c3_translate_fail_fast c3_mkc c3_out_fail c3_inp .GLSL330).2.2 [c3_blob]
      c3_spv_fail (by decide) (by decide) [c3_blob]

/-! ## C6: binary round-trip lemmas -/

theorem charOfNatToNat (c : Char) : Char.ofNat c.toNat = c := by
  unfold Char.ofNat
  have h : Nat.isValidChar c.toNat := c.valid
  rw [dif_pos h]
  unfold Char.ofNatAux
  apply Char.ext
  apply UInt32.ext
  simp [Char.toNat, UInt32.toNat]

theorem readU16_bytes (v : Nat) (h : v < 65536) (r : List Nat) :
    readU16 (u16_bytes v ++ r) = some (v, r) := by
  simp only [u16_bytes, List.cons_append, List.nil_append, readU16]
  have h2 : v % (256 * 256) = v % 256 + 256 * (v / 256 % 256) := Nat.mod_mul
  have h3 : v % (256 * 256) = v := Nat.mod_eq_of_lt (by omega)
  rw [← h2, h3]

theorem readByte_bytes (v : Nat) (h : v < 256) (r : List Nat) :
    readByte (byte_bytes v ++ r) = some (v, r) := by
  simp only [byte_bytes, List.cons_append, List.nil_append, readByte]
  rw [Nat.mod_eq_of_lt h]

theorem readBytes_exact (l : List Nat) : ∀ r, readBytes l.length (l ++ r) = some (l, r) := by
  induction l with
  | nil => intro r; simp [readBytes]
  | cons b tl ih =>
    intro r
    rw [List.length_cons, List.cons_append, readBytes, ih r]

theorem str_bytes_length (s : String) : (str_bytes s).length = s.length := by
  show (s.data.map Char.toNat).length = s.length
  rw [List.length_map]
  rfl

theorem readString_write (s : String) (b : List Nat) (h : write_string s = some b)
    (r : List Nat) : readString (b ++ r) = some (s, r) := by
  have hlen : s.length < 65535 := by
    by_contra hc
    simp [write_string, hc] at h
  have hb : b = u16_bytes s.length ++ str_bytes s := by
    simp only [write_string, if_pos hlen, Option.some.injEq] at h
    exact h.symm
  subst hb
  rw [List.append_assoc]
  simp only [readString, readU16_bytes s.length (by omega)]
  have hrb : readBytes s.length (str_bytes s ++ r) = some (str_bytes s, r) := by
    conv_lhs => rw [← str_bytes_length s]
    exact readBytes_exact _ _
  simp only [hrb]
  have hmap : (str_bytes s).map Char.ofNat = s.data := by
    simp only [str_bytes, List.map_map]
    have hcongr : ∀ c ∈ s.data, (Char.ofNat ∘ Char.toNat) c = id c :=
      fun c _ => charOfNatToNat c
    rw [List.map_congr_left hcongr, List.map_id]
  rw [hmap]

theorem mapM_writes_some {α} (W : α → Option (List Nat)) :
    ∀ xs : List α, (∀ x ∈ xs, ∃ b, W x = some b) → ∃ bs, xs.mapM W = some bs := by
  intro xs
  induction xs with
  | nil => intro _; exact ⟨[], rfl⟩
  | cons x tl ih =>
    intro h
    obtain ⟨b, hb⟩ := h x (List.mem_cons_self x tl)
    obtain ⟨bs, hbs⟩ := ih (fun y hy => h y (List.mem_cons_of_mem x hy))
    refine ⟨b :: bs, ?_⟩
    rw [List.mapM_cons, hb, hbs]
    rfl

theorem readList_mapM {α β} (W : α → Option (List Nat)) (g : α → β)
    (f : List Nat → Option (β × List Nat)) :
    ∀ (xs : List α) (bs : List (List Nat)),
      xs.mapM W = some bs →
      (∀ x ∈ xs, ∀ b, W x = some b → ∀ r, f (b ++ r) = some (g x, r)) →
      ∀ r, readList f xs.length (bs.flatten ++ r) = some (xs.map g, r) := by
  intro xs
  induction xs with
  | nil =>
    intro bs h _ r
    have hb : bs = [] := by
      simp only [List.mapM_nil, pure, Option.some.injEq] at h
      exact h.symm
    subst hb
    simp [readList]
  | cons x tl ih =>
    intro bs h hf r
    rw [List.mapM_cons] at h
    cases hW : W x with
    | none => rw [hW] at h; simp at h
    | some b =>
      rw [hW] at h
      cases hM : tl.mapM W with
      | none => rw [hM] at h; simp at h
      | some bs' =>
        rw [hM] at h
        simp only [Option.bind_eq_bind, Option.some_bind, Option.some.injEq, pure] at h
        subst h
        have hfx := hf x (List.mem_cons_self x tl) b hW (bs'.flatten ++ r)
        have ihh := ih bs' hM (fun y hy => hf y (List.mem_cons_of_mem x hy)) r
        simp only [List.flatten_cons, List.length_cons, List.append_assoc, readList,
          hfx, ihh, List.map_cons]

theorem uniform_type_code_lt (t : uniform_type_t) : uniform_type_code t < 256 := by
  cases t <;> decide

theorem uniform_type_code_roundtrip (t : uniform_type_t) :
    uniform_type_of_code (uniform_type_code t) = some t := by
  cases t <;> rfl

theorem image_type_code_lt (t : image_type_t) : image_type_code t < 256 := by
  cases t <;> decide

theorem image_type_code_roundtrip (t : image_type_t) :
    image_type_of_code (image_type_code t) = some t := by
  cases t <;> rfl

theorem image_basetype_code_lt (t : image_basetype_t) : image_basetype_code t < 256 := by
  cases t <;> decide

theorem image_basetype_code_roundtrip (t : image_basetype_t) :
    image_basetype_of_code (image_basetype_code t) = some t := by
  cases t <;> rfl

theorem stage_code_lt (s : stage_t) : stage_code s < 256 := by
  cases s <;> decide

theorem stage_code_roundtrip (s : stage_t) : stage_of_code (stage_code s) = some s := by
  cases s <;> rfl

theorem getD_eq_getElem_of_lt {α} (l : List α) (d : α) (j : Nat) (h : j < l.length) :
    l.getD j d = l[j] := by
  rw [getD_of_lt _ _ _ h]
  exact List.get_eq_getElem l ⟨j, h⟩

theorem readString_write_assoc (s : String) (h : s.length < 65535) (r : List Nat) :
    readString (u16_bytes s.length ++ (str_bytes s ++ r)) = some (s, r) := by
  have hb : write_string s = some (u16_bytes s.length ++ str_bytes s) := by
    simp [write_string, h]
  have := readString_write s _ hb r
  simpa [List.append_assoc] using this

theorem read_attr_write (a : attr_t) (hn : a.name.length < 65535)
    (hsn : a.sem_name.length < 65535) (hs0 : 0 ≤ a.slot) (hs1 : a.slot < 65536)
    (he0 : 0 ≤ a.sem_index) (he1 : a.sem_index < 256) :
    ∃ b, write_attr a = some b ∧ ∀ r, read_attr (b ++ r) = some (a, r) := by
  have hbn : write_string a.name = some (u16_bytes a.name.length ++ str_bytes a.name) := by
    simp [write_string, hn]
  have hbs : write_string a.sem_name
      = some (u16_bytes a.sem_name.length ++ str_bytes a.sem_name) := by
    simp [write_string, hsn]
  have hw : write_attr a = some ((u16_bytes a.name.length ++ str_bytes a.name)
      ++ u16_bytes (a.slot % 65536).toNat
      ++ (u16_bytes a.sem_name.length ++ str_bytes a.sem_name)
      ++ byte_bytes (a.sem_index % 256).toNat) := by
    simp [write_attr, hbn, hbs]
  refine ⟨_, hw, ?_⟩
  intro r
  have hslt : (a.slot % 65536).toNat < 65536 := by
    have := Int.emod_lt_of_pos a.slot (by omega : (0 : Int) < 65536)
    omega
  have hsem : (a.sem_index % 256).toNat < 256 := by
    have := Int.emod_lt_of_pos a.sem_index (by omega : (0 : Int) < 256)
    omega
  have hrecs : ((a.slot % 65536).toNat : Int) = a.slot := by
    rw [Int.emod_eq_of_lt hs0 hs1]
    exact Int.toNat_of_nonneg hs0
  have hrece : ((a.sem_index % 256).toNat : Int) = a.sem_index := by
    rw [Int.emod_eq_of_lt he0 he1]
    exact Int.toNat_of_nonneg he0
  simp only [read_attr, List.append_assoc, readString_write_assoc a.name hn,
    readString_write_assoc a.sem_name hsn,
    readU16_bytes (a.slot % 65536).toNat hslt, readByte_bytes (a.sem_index % 256).toNat hsem,
    hrecs, hrece]

theorem read_uniform_write (u : uniform_t) (hn : u.name.length < 65535)
    (hac : u.array_count < 65536) (hoff : u.offset < 65536) :
    ∃ b, write_uniform u = some b ∧ ∀ r, read_uniform (b ++ r) = some (u, r) := by
  have hbn : write_string u.name = some (u16_bytes u.name.length ++ str_bytes u.name) := by
    simp [write_string, hn]
  have hw : write_uniform u = some ((u16_bytes u.name.length ++ str_bytes u.name)
      ++ byte_bytes (uniform_type_code u.type) ++ u16_bytes u.array_count
      ++ u16_bytes u.offset) := by
    simp [write_uniform, hbn]
  refine ⟨_, hw, ?_⟩
  intro r
  simp only [read_uniform, List.append_assoc, readString_write_assoc u.name hn,
    readByte_bytes (uniform_type_code u.type) (uniform_type_code_lt u.type),
    uniform_type_code_roundtrip u.type,
    readU16_bytes u.array_count hac, readU16_bytes u.offset hoff]

theorem read_uniform_block_write (ub : uniform_block_t)
    (hcnt : ub.uniforms.length < 65536)
    (hmem : ∀ u ∈ ub.uniforms, u.name.length < 65535 ∧ u.array_count < 65536 ∧
      u.offset < 65536) :
    ∃ b, write_uniform_block ub = some b ∧
      ∀ r, read_uniform_block (b ++ r) = some (ub.uniforms, r) := by
  obtain ⟨bs, hbs⟩ := mapM_writes_some write_uniform ub.uniforms
    (fun u hu => by
      obtain ⟨hn, hac, hoff⟩ := hmem u hu
      obtain ⟨b, hb, _⟩ := read_uniform_write u hn hac hoff
      exact ⟨b, hb⟩)
  have hw : write_uniform_block ub = some (u16_bytes ub.uniforms.length ++ bs.flatten) := by
    simp only [write_uniform_block, hbs, Option.bind_eq_bind, Option.some_bind]
    rfl
  refine ⟨_, hw, ?_⟩
  intro r
  have hrl := readList_mapM write_uniform id read_uniform ub.uniforms bs hbs
    (fun u hu b hb r' => by
      obtain ⟨hn, hac, hoff⟩ := hmem u hu
      obtain ⟨b0, hb0, hr0⟩ := read_uniform_write u hn hac hoff
      rw [hb0] at hb
      simp only [Option.some.injEq] at hb
      subst hb
      exact hr0 r') r
  simp only [read_uniform_block, List.append_assoc,
    readU16_bytes ub.uniforms.length hcnt, hrl, List.map_id]

theorem read_image_write (im : image_t) (hn : im.name.length < 65535)
    (hs0 : 0 ≤ im.slot) (hs1 : im.slot < 65536) :
    ∃ b, write_image im = some b ∧ ∀ r, read_image (b ++ r)
      = some (({ name := im.name, slot := im.slot.toNat, type := im.type,
                 base_type := im.base_type } : read_image_t), r) := by
  have hbn : write_string im.name = some (u16_bytes im.name.length ++ str_bytes im.name) := by
    simp [write_string, hn]
  have hw : write_image im = some ((u16_bytes im.name.length ++ str_bytes im.name)
      ++ u16_bytes (im.slot % 65536).toNat ++ byte_bytes (image_type_code im.type)
      ++ byte_bytes (image_basetype_code im.base_type)) := by
    simp [write_image, hbn]
  refine ⟨_, hw, ?_⟩
  intro r
  have hslt : (im.slot % 65536).toNat < 65536 := by
    have := Int.emod_lt_of_pos im.slot (by omega : (0 : Int) < 65536)
    omega
  have hrecs : (im.slot % 65536).toNat = im.slot.toNat := by
    rw [Int.emod_eq_of_lt hs0 hs1]
  have hslt2 : im.slot.toNat < 65536 := by omega
  rw [hrecs] at hw ⊢
  simp only [read_image, List.append_assoc, readString_write_assoc im.name hn,
    readU16_bytes im.slot.toNat hslt2,
    readByte_bytes (image_type_code im.type) (image_type_code_lt im.type),
    image_type_code_roundtrip im.type,
    readByte_bytes (image_basetype_code im.base_type) (image_basetype_code_lt im.base_type),
    image_basetype_code_roundtrip im.base_type]

theorem set_by_slot_length (l : List attr_t) :
    ∀ arr : List attr_t, (set_by_slot arr l).length = arr.length := by
  induction l with
  | nil => intro arr; rfl
  | cons x tl ih =>
    intro arr
    show (set_by_slot (arr.set x.slot.toNat x) tl).length = arr.length
    rw [ih]
    simp

theorem set_by_slot_getD (l : List attr_t) :
    ∀ (arr : List attr_t) (j : Nat), j < arr.length →
      (∀ x ∈ l, x.slot.toNat < arr.length) →
      (set_by_slot arr l).getD j {}
        = (match l.reverse.find? (fun x => x.slot.toNat == j) with
           | some x => x
           | none => arr.getD j {}) := by
  induction l with
  | nil =>
    intro arr j hj _
    simp [set_by_slot]
  | cons x tl ih =>
    intro arr j hj hb
    have hstep : set_by_slot arr (x :: tl) = set_by_slot (arr.set x.slot.toNat x) tl := rfl
    rw [hstep]
    have hj2 : j < (arr.set x.slot.toNat x).length := by simpa using hj
    have hb2 : ∀ y ∈ tl, y.slot.toNat < (arr.set x.slot.toNat x).length := by
      intro y hy
      simpa using hb y (List.mem_cons_of_mem x hy)
    rw [ih (arr.set x.slot.toNat x) j hj2 hb2]
    simp only [List.reverse_cons, List.find?_append]
    cases hfind : tl.reverse.find? (fun y => y.slot.toNat == j) with
    | some y => simp [hfind]
    | none =>
      simp only [hfind, Option.none_orElse]
      by_cases heq : x.slot.toNat = j
      · subst heq
        simp only [List.find?_cons, beq_self_eq_true, reduceIte]
        rw [getD_eq_getElem_of_lt _ _ _ hj2, getD_eq_getElem_of_lt _ _ _ hj]
        · simp [List.getElem_set]
      · have hb3 : (x.slot.toNat == j) = false := by simp [heq]
        simp only [List.find?_cons, hb3]
        rw [getD_eq_getElem_of_lt _ _ _ hj2, getD_eq_getElem_of_lt _ _ _ hj]
        simp [List.getElem_set, heq]

/-- Well-formedness of one slot of the fixed attribute array for
serialization: the slot is either unused (the default sentinel record) or
self-indexed with in-range field values. -/
def attr_wf (i : Nat) (a : attr_t) : Prop :=
  a = {} ∨ (a.slot = (i : Int) ∧ a.name.length < 65535 ∧ a.sem_name.length < 65535 ∧
    0 ≤ a.sem_index ∧ a.sem_index < 256)

instance (i : Nat) (a : attr_t) : Decidable (attr_wf i a) := by
  unfold attr_wf
  infer_instance

/-- Rebuilding the fixed slot-indexed array from its used entries recovers
the array exactly. -/
theorem attrs_rebuild (attrs : List attr_t) (hlen : attrs.length = attr_NUM)
    (hwf : ∀ i, i < attr_NUM → attr_wf i (attrs.getD i {})) :
    set_by_slot (List.replicate attr_NUM {}) (attrs.filter (fun a => a.slot ≥ 0)) = attrs := by
  have hmem : ∀ x ∈ attrs.filter (fun a => a.slot ≥ 0),
      ∃ i, i < attr_NUM ∧ x = attrs.getD i {} ∧ x.slot = (i : Int) := by
    intro x hx
    obtain ⟨hxmem, hxp⟩ := List.mem_filter.mp hx
    have hxslot : x.slot ≥ 0 := of_decide_eq_true hxp
    obtain ⟨i, hi, hget⟩ := List.mem_iff_getElem.mp hxmem
    have hiN : i < attr_NUM := by omega
    have hgetD : attrs.getD i {} = x := by
      rw [getD_eq_getElem_of_lt _ _ _ hi]
      exact hget
    rcases hwf i hiN with hd | hok
    · rw [hgetD] at hd
      subst hd
      exact absurd hxslot (by decide)
    · rw [hgetD] at hok
      exact ⟨i, hiN, hgetD.symm, hok.1⟩
  have hbound : ∀ x ∈ attrs.filter (fun a => a.slot ≥ 0),
      x.slot.toNat < (List.replicate attr_NUM ({} : attr_t)).length := by
    intro x hx
    obtain ⟨i, hiN, _, hxs⟩ := hmem x hx
    rw [List.length_replicate, hxs]
    simpa using hiN
  apply List.ext_getElem
  · rw [set_by_slot_length]
    simp [hlen]
  intro j h1 h2
  have hjN : j < attr_NUM := by omega
  have hrepl : j < (List.replicate attr_NUM ({} : attr_t)).length := by simpa using hjN
  rw [← getD_eq_getElem_of_lt _ ({} : attr_t) _ h1, ← getD_eq_getElem_of_lt _ ({} : attr_t) _ h2]
  rw [set_by_slot_getD _ _ _ hrepl hbound]
  cases hfind : (attrs.filter (fun a => a.slot ≥ 0)).reverse.find?
      (fun x => x.slot.toNat == j) with
  | some x =>
    have hx2 := List.find?_some hfind
    have hxmem : x ∈ attrs.filter (fun a => a.slot ≥ 0) :=
      List.mem_reverse.mp (List.mem_of_find?_eq_some hfind)
    obtain ⟨i, hiN, hxe, hxs⟩ := hmem x hxmem
    have hij : i = j := by
      have : x.slot.toNat = j := by simpa using hx2
      rw [hxs] at this
      simpa using this
    subst hij
    exact hxe
  | none =>
    simp only
    rcases hwf j hjN with hd | hok
    · rw [hd, getD_of_lt _ _ _ hrepl]
      simp
    · exfalso
      have hjmem : attrs.getD j {} ∈ attrs.filter (fun a => a.slot ≥ 0) := by
        rw [List.mem_filter]
        refine ⟨getD_mem attrs {} j (by omega), ?_⟩
        rw [hok.1]
        simp
      have := List.find?_eq_none.mp hfind (attrs.getD j {}) (List.mem_reverse.mpr hjmem)
      apply this
      rw [hok.1]
      simp

/-- Every used (non-sentinel) entry of a well-formed attribute array has
serializable field values. -/
theorem filtered_attr_wf (attrs : List attr_t) (hl : attrs.length = attr_NUM)
    (hwf : ∀ i, i < attr_NUM → attr_wf i (attrs.getD i {})) :
    ∀ x ∈ attrs.filter (fun a => a.slot ≥ 0),
      x.name.length < 65535 ∧ x.sem_name.length < 65535 ∧ 0 ≤ x.slot ∧ x.slot < 65536 ∧
      0 ≤ x.sem_index ∧ x.sem_index < 256 := by
  intro x hx
  obtain ⟨hxmem, hxp⟩ := List.mem_filter.mp hx
  have hxslot : x.slot ≥ 0 := of_decide_eq_true hxp
  obtain ⟨i, hi, hget⟩ := List.mem_iff_getElem.mp hxmem
  have hiN : i < attr_NUM := by omega
  have hgetD : attrs.getD i {} = x := by
    rw [getD_eq_getElem_of_lt _ _ _ hi]
    exact hget
  rcases hwf i hiN with hd | hok
  · rw [hgetD] at hd
    subst hd
    exact absurd hxslot (by decide)
  · rw [hgetD] at hok
    obtain ⟨hs, hn, hsn, he0, he1⟩ := hok
    refine ⟨hn, hsn, hxslot, ?_, he0, he1⟩
    rw [hs]
    have : i < 65536 := by
      have : attr_NUM = 16 := rfl
      omega
    omega

/-- Well-formedness of a reflection record for binary serialization: both
attribute arrays have the fixed capacity with self-indexed (or unused)
slots, and every serialized string, count and narrowed integer fits its
encoded width. -/
def refl_wf (refl : spirvcross_refl_t) : Prop :=
  refl.entry_point.length < 65535 ∧
  refl.inputs.length = attr_NUM ∧
  refl.outputs.length = attr_NUM ∧
  (∀ i, i < attr_NUM → attr_wf i (refl.inputs.getD i {})) ∧
  (∀ i, i < attr_NUM → attr_wf i (refl.outputs.getD i {})) ∧
  refl.uniform_blocks.length < 65536 ∧
  (∀ ub ∈ refl.uniform_blocks, ub.uniforms.length < 65536 ∧
    ∀ u ∈ ub.uniforms, u.name.length < 65535 ∧ u.array_count < 65536 ∧ u.offset < 65536) ∧
  refl.images.length < 65536 ∧
  (∀ im ∈ refl.images, im.name.length < 65535 ∧ 0 ≤ im.slot ∧ im.slot < 65536)

instance (refl : spirvcross_refl_t) : Decidable (refl_wf refl) := by
  unfold refl_wf
  infer_instance

/-- C6 (amended): for every well-formed reflection record, a reader written
against the layout table recovers, from the byte stream alone, the stage,
the entry point, both full attribute arrays, the ordered member list of
every uniform block and every image except its `unique_index` — but the
stream does not determine a uniform block's name, binding slot or byte size
(see the counterexample), so the record as a whole is not recoverable
field-for-field. -/
theorem c6_roundtrip_amended (refl : spirvcross_refl_t) (h : refl_wf refl) :
    ∃ bytes, write_binary_reflection_info refl = some bytes ∧
      read_reflection bytes = some
        { stage := refl.stage, entry_point := refl.entry_point,
          inputs := refl.inputs, outputs := refl.outputs,
          ub_uniforms := refl.uniform_blocks.map (fun ub => ub.uniforms),
          images := refl.images.map (fun im =>
            { name := im.name, slot := im.slot.toNat, type := im.type,
              base_type := im.base_type }) } := by
  obtain ⟨hent, hilen, holen, hiwf, howf, hublen, hubmem, himlen, himmem⟩ := h
  have hbent : write_string refl.entry_point
      = some (u16_bytes refl.entry_point.length ++ str_bytes refl.entry_point) := by
    simp [write_string, hent]
  have hinswf := filtered_attr_wf refl.inputs hilen hiwf
  have houtswf := filtered_attr_wf refl.outputs holen howf
  obtain ⟨bins, hbins⟩ := mapM_writes_some write_attr
      (refl.inputs.filter (fun a => a.slot ≥ 0))
      (fun x hx => by
        obtain ⟨h1, h2, h3, h4, h5, h6⟩ := hinswf x hx
        obtain ⟨b, hb, _⟩ := read_attr_write x h1 h2 h3 h4 h5 h6
        exact ⟨b, hb⟩)
  obtain ⟨bouts, hbouts⟩ := mapM_writes_some write_attr
      (refl.outputs.filter (fun a => a.slot ≥ 0))
      (fun x hx => by
        obtain ⟨h1, h2, h3, h4, h5, h6⟩ := houtswf x hx
        obtain ⟨b, hb, _⟩ := read_attr_write x h1 h2 h3 h4 h5 h6
        exact ⟨b, hb⟩)
  obtain ⟨bubs, hbubs⟩ := mapM_writes_some write_uniform_block refl.uniform_blocks
      (fun ub hub => by
        obtain ⟨hc, hm⟩ := hubmem ub hub
        obtain ⟨b, hb, _⟩ := read_uniform_block_write ub hc hm
        exact ⟨b, hb⟩)
  obtain ⟨bimgs, hbimgs⟩ := mapM_writes_some write_image refl.images
      (fun im him => by
        obtain ⟨h1, h2, h3⟩ := himmem im him
        obtain ⟨b, hb, _⟩ := read_image_write im h1 h2 h3
        exact ⟨b, hb⟩)
  have hw : write_binary_reflection_info refl
      = some (str_bytes "SHDC" ++ u16_bytes BINARY_FORMAT_VERSION
          ++ byte_bytes (stage_code refl.stage)
          ++ (u16_bytes refl.entry_point.length ++ str_bytes refl.entry_point)
          ++ u16_bytes (refl.inputs.filter (fun a => a.slot ≥ 0)).length ++ bins.flatten
          ++ u16_bytes (refl.outputs.filter (fun a => a.slot ≥ 0)).length ++ bouts.flatten
          ++ u16_bytes refl.uniform_blocks.length ++ bubs.flatten
          ++ u16_bytes refl.images.length ++ bimgs.flatten) := by
    simp only [write_binary_reflection_info, hbent, hbins, hbouts, hbubs, hbimgs,
      Option.bind_eq_bind, Option.some_bind]
    rfl
  refine ⟨_, hw, ?_⟩
  have hmagic : ∀ r, readBytes 4 (str_bytes "SHDC" ++ r) = some (str_bytes "SHDC", r) := by
    intro r
    have h4 : (str_bytes "SHDC").length = 4 := by decide
    have := readBytes_exact (str_bytes "SHDC") r
    rw [h4] at this
    exact this
  have hicnt : (refl.inputs.filter (fun a => a.slot ≥ 0)).length < 65536 := by
    have h1 := List.length_filter_le (fun a => decide (a.slot ≥ 0)) refl.inputs
    have h2 : refl.inputs.length = 16 := by rw [hilen]; rfl
    omega
  have hocnt : (refl.outputs.filter (fun a => a.slot ≥ 0)).length < 65536 := by
    have h1 := List.length_filter_le (fun a => decide (a.slot ≥ 0)) refl.outputs
    have h2 : refl.outputs.length = 16 := by rw [holen]; rfl
    omega
  have hreadins : ∀ r, readList read_attr (refl.inputs.filter (fun a => a.slot ≥ 0)).length
      (bins.flatten ++ r) = some (refl.inputs.filter (fun a => a.slot ≥ 0), r) := by
    intro r
    have := readList_mapM write_attr id read_attr _ bins hbins
      (fun x hx b hb r' => by
        obtain ⟨h1, h2, h3, h4, h5, h6⟩ := hinswf x hx
        obtain ⟨b0, hb0, hr0⟩ := read_attr_write x h1 h2 h3 h4 h5 h6
        rw [hb0] at hb
        simp only [Option.some.injEq] at hb
        subst hb
        exact hr0 r') r
    simpa using this
  have hreadouts : ∀ r, readList read_attr (refl.outputs.filter (fun a => a.slot ≥ 0)).length
      (bouts.flatten ++ r) = some (refl.outputs.filter (fun a => a.slot ≥ 0), r) := by
    intro r
    have := readList_mapM write_attr id read_attr _ bouts hbouts
      (fun x hx b hb r' => by
        obtain ⟨h1, h2, h3, h4, h5, h6⟩ := houtswf x hx
        obtain ⟨b0, hb0, hr0⟩ := read_attr_write x h1 h2 h3 h4 h5 h6
        rw [hb0] at hb
        simp only [Option.some.injEq] at hb
        subst hb
        exact hr0 r') r
    simpa using this
  have hreadubs : ∀ r, readList read_uniform_block refl.uniform_blocks.length
      (bubs.flatten ++ r) = some (refl.uniform_blocks.map (fun ub => ub.uniforms), r) := by
    intro r
    exact readList_mapM write_uniform_block (fun ub => ub.uniforms) read_uniform_block
      _ bubs hbubs
      (fun ub hub b hb r' => by
        obtain ⟨hc, hm⟩ := hubmem ub hub
        obtain ⟨b0, hb0, hr0⟩ := read_uniform_block_write ub hc hm
        rw [hb0] at hb
        simp only [Option.some.injEq] at hb
        subst hb
        exact hr0 r') r
  have hreadimgs : readList read_image refl.images.length bimgs.flatten
      = some (refl.images.map (fun im =>
          ({ name := im.name, slot := im.slot.toNat, type := im.type,
             base_type := im.base_type } : read_image_t)), []) := by
    have := readList_mapM write_image (fun im =>
        ({ name := im.name, slot := im.slot.toNat, type := im.type,
           base_type := im.base_type } : read_image_t)) read_image
      _ bimgs hbimgs
      (fun im him b hb r' => by
        obtain ⟨h1, h2, h3⟩ := himmem im him
        obtain ⟨b0, hb0, hr0⟩ := read_image_write im h1 h2 h3
        rw [hb0] at hb
        simp only [Option.some.injEq] at hb
        subst hb
        exact hr0 r') []
    simpa using this
  simp only [read_reflection, List.append_assoc, hmagic, eq_self_iff_true, if_true,
    readU16_bytes BINARY_FORMAT_VERSION (by decide),
    readByte_bytes (stage_code refl.stage) (stage_code_lt refl.stage),
    stage_code_roundtrip refl.stage,
    readString_write_assoc refl.entry_point hent,
    readU16_bytes (refl.inputs.filter (fun a => a.slot ≥ 0)).length hicnt,
    readU16_bytes (refl.outputs.filter (fun a => a.slot ≥ 0)).length hocnt,
    readU16_bytes refl.uniform_blocks.length hublen,
    readU16_bytes refl.images.length himlen,
    hreadins, hreadouts, hreadubs, hreadimgs,
    attrs_rebuild refl.inputs hilen hiwf, attrs_rebuild refl.outputs holen howf]

/-- Two reflection records that differ only in a uniform block's name,
binding slot and byte size. -/
def c6_refl1 : spirvcross_refl_t :=
  { uniform_blocks := [{ slot := 0, size := 16, name := "params", uniforms := [] }] }

def c6_refl2 : spirvcross_refl_t :=
  { uniform_blocks := [{ slot := 1, size := 32, name := "other", uniforms := [] }] }

/-- C6 counterexample: two different reflection records — their uniform
blocks differ in name, slot and size — serialize to exactly the same byte
stream, so no reader can reconstruct those fields from the stream alone,
refuting field-for-field recoverability. -/
theorem c6_block_identity_lost_cex :
    c6_refl1 ≠ c6_refl2 ∧
    (c6_refl1.uniform_blocks.getD 0 {}).name ≠ (c6_refl2.uniform_blocks.getD 0 {}).name ∧
    (c6_refl1.uniform_blocks.getD 0 {}).slot ≠ (c6_refl2.uniform_blocks.getD 0 {}).slot ∧
    (c6_refl1.uniform_blocks.getD 0 {}).size ≠ (c6_refl2.uniform_blocks.getD 0 {}).size ∧
    write_binary_reflection_info c6_refl1 = write_binary_reflection_info c6_refl2 ∧
    (write_binary_reflection_info c6_refl1).isSome = true := by
  decide

/-- A concrete well-formed reflection record for the C6 witness. -/
def c6_wub : uniform_block_t :=
  { slot := 0, size := 64, name := "params",
    uniforms := [{ name := "mvp", type := .MAT4, array_count := 0, offset := 0 }],
    unique_index := 0 }

def c6_wimg : image_t :=
  { slot := 0, name := "tex", type := .IMAGE_2D, base_type := .FLOAT, unique_index := 0 }

def c6_wrefl : spirvcross_refl_t :=
  { stage := .VS, entry_point := "main",
    inputs := (List.replicate attr_NUM {}).set 0
      { slot := 0, name := "pos", sem_name := "TEXCOORD", sem_index := 0 },
    outputs := (List.replicate attr_NUM {}).set 1
      { slot := 1, name := "uv", sem_name := "TEXCOORD", sem_index := 1 },
    uniform_blocks := [c6_wub],
    images := [c6_wimg] }

/-- Witness for the amended C6 on `c6_wrefl`. -/
theorem c6_roundtrip_amended_witness :
    refl_wf c6_wrefl ∧
    (∃ bytes, write_binary_reflection_info c6_wrefl = some bytes ∧
      read_reflection bytes = some
        { stage := c6_wrefl.stage, entry_point := c6_wrefl.entry_point,
          inputs := c6_wrefl.inputs, outputs := c6_wrefl.outputs,
          ub_uniforms := c6_wrefl.uniform_blocks.map (fun ub => ub.uniforms),
          images := c6_wrefl.images.map (fun im =>
            { name := im.name, slot := im.slot.toNat, type := im.type,
              base_type := im.base_type }) }) :=
  ⟨by decide, c6_roundtrip_amended c6_wrefl (by decide)⟩

end shdc
